import Mathlib

/-!
Verification of the mainframe_copilot screen-automation core against its
natural-language specification.

Python strings are embedded as `List Char`; Python `int` as `Int` (arbitrary
precision, two's-complement bitwise semantics); fallible operations return
`Option`.  Each section embeds one source file of the repository:

* `herc_step8/tools/screen_fingerprint.py` (normalize / digest / match / goldens)
* `herc_step8/bridge/tn3270_bridge/parser.py` (field extractor)
* `herc_step8/ai/observability.py` (parameter redaction)
* `herc_step8/bridge/tn3270_bridge/session.py` (loopback connect guard)
* `herc_step8/tools/flow_runner.py` (flow engine)
-/

/-- Python strings, embedded as lists of characters. -/
abbrev Str := List Char

/-- Characters stripped by Python `str.rstrip()` / `str.strip()`: the ASCII
whitespace characters (space, tab, newline, carriage return, vertical tab,
form feed).  Python also strips a few rare non-ASCII Unicode space
characters; those are not modelled. -/
def pySpace (c : Char) : Bool :=
  c = ' ' || c = '\t' || c = '\n' || c = '\r' || c = '\x0b' || c = '\x0c'

/-- Python `str.rstrip()`: drop trailing whitespace. -/
def pyRstrip (l : Str) : Str :=
  (l.reverse.dropWhile pySpace).reverse

/-- Python `str.strip()`: drop leading and trailing whitespace. -/
def pyStrip (l : Str) : Str :=
  pyRstrip (l.dropWhile pySpace)

/-- The line list built by `screen_fingerprint.normalize_screen`
(screen_fingerprint.py lines 18-29): split on newlines, right-trim every
line (line 21), pop leading blank lines (lines 24-25), pop trailing blank
lines (lines 28-29). -/
def normLines (t : Str) : List Str :=
  ((((t.splitOn '\n').map pyRstrip).dropWhile List.isEmpty).reverse.dropWhile
    List.isEmpty).reverse

/-- `screen_fingerprint.normalize_screen` (lines 11-31): the processed lines
re-joined with a newline (line 31). -/
def normalize_screen (t : Str) : Str :=
  List.intercalate ['\n'] (normLines t)

lemma mem_of_dropWhile {α : Type} {p : α → Bool} {l : List α} {x : α}
    (h : x ∈ l.dropWhile p) : x ∈ l :=
  (List.dropWhile_sublist _).subset h

section SplitLemmas

variable {α : Type} [DecidableEq α]

lemma mem_splitOnP_not {α : Type} (p : α → Bool) (l : List α) :
    ∀ q ∈ l.splitOnP p, ∀ a ∈ q, ¬ p a := by
  induction l with
  | nil =>
    intro q hq a ha
    simp only [List.splitOnP_nil, List.mem_singleton] at hq
    subst hq
    simp at ha
  | cons x xs ih =>
    intro q hq a ha
    rw [List.splitOnP_cons] at hq
    by_cases hx : p x
    · rw [if_pos hx] at hq
      rcases List.mem_cons.mp hq with h | h
      · subst h; simp at ha
      · exact ih q h a ha
    · rw [if_neg hx] at hq
      rcases hxs : xs.splitOnP p with _ | ⟨hd, tl⟩
      · exact absurd hxs (List.splitOnP_ne_nil p xs)
      · rw [hxs] at hq
        simp only [List.modifyHead] at hq
        rcases List.mem_cons.mp hq with h | h
        · subst h
          rcases List.mem_cons.mp ha with h' | h'
          · subst h'; exact hx
          · exact ih hd (by rw [hxs]; exact List.mem_cons_self _ _) a h'
        · exact ih q (by rw [hxs]; exact List.mem_cons_of_mem _ h) a ha

lemma mem_splitOn_not_mem (x : α) (l : List α) :
    ∀ q ∈ l.splitOn x, x ∉ q := by
  intro q hq hx
  have := mem_splitOnP_not (fun a => a == x) l q (by simpa [List.splitOn] using hq) x hx
  simp at this

end SplitLemmas

lemma pyRstrip_idem (l : Str) : pyRstrip (pyRstrip l) = pyRstrip l := by
  unfold pyRstrip
  rw [List.reverse_reverse, List.dropWhile_idempotent]

lemma mem_pyRstrip_sub {l : Str} {c : Char} (h : c ∈ pyRstrip l) : c ∈ l := by
  unfold pyRstrip at h
  rw [List.mem_reverse] at h
  exact List.mem_reverse.mp (mem_of_dropWhile h)

lemma dropWhile_head_not {α : Type} (p : α → Bool) (l : List α) :
    ∀ x, (l.dropWhile p).head? = some x → ¬ p x := by
  induction l with
  | nil => intro x hx; simp at hx
  | cons a as ih =>
    intro x hx
    rw [List.dropWhile_cons] at hx
    by_cases ha : p a
    · rw [if_pos ha] at hx; exact ih x hx
    · rw [if_neg ha] at hx
      simp only [List.head?_cons, Option.some.injEq] at hx
      subst hx
      exact ha

lemma dropWhile_eq_self_of_head {α : Type} (p : α → Bool) (l : List α)
    (h : ∀ x, l.head? = some x → ¬ p x) : l.dropWhile p = l := by
  cases l with
  | nil => rfl
  | cons a as =>
    rw [List.dropWhile_cons, if_neg (h a rfl)]

lemma normLines_mem {t : Str} {q : Str} (hq : q ∈ normLines t) :
    q ∈ ((t.splitOn '\n').map pyRstrip).dropWhile List.isEmpty := by
  unfold normLines at hq
  rw [List.mem_reverse] at hq
  exact List.mem_reverse.mp (mem_of_dropWhile hq)

lemma normLines_no_newline (t : Str) : ∀ q ∈ normLines t, '\n' ∉ q := by
  intro q hq hnq
  have h0 : q ∈ (t.splitOn '\n').map pyRstrip :=
    mem_of_dropWhile (normLines_mem hq)
  rcases List.mem_map.mp h0 with ⟨r, hr, hrq⟩
  have hmem : '\n' ∈ pyRstrip r := by rw [hrq]; exact hnq
  exact mem_splitOn_not_mem '\n' t r hr (mem_pyRstrip_sub hmem)

lemma normLines_rstripped (t : Str) : ∀ q ∈ normLines t, pyRstrip q = q := by
  intro q hq
  have h0 : q ∈ (t.splitOn '\n').map pyRstrip :=
    mem_of_dropWhile (normLines_mem hq)
  rcases List.mem_map.mp h0 with ⟨r, _, hrq⟩
  rw [← hrq, pyRstrip_idem]

lemma normLines_head (t : Str) :
    ∀ x, (normLines t).head? = some x → ¬ x.isEmpty := by
  intro x hx
  have hne : normLines t ≠ [] := by
    intro h; rw [h] at hx; exact Option.noConfusion hx
  have hpre := List.rdropWhile_prefix (l := ((t.splitOn '\n').map pyRstrip).dropWhile
    List.isEmpty) (p := List.isEmpty)
  obtain ⟨tl, htl⟩ := hpre
  have hrd : normLines t = List.rdropWhile List.isEmpty
      (((t.splitOn '\n').map pyRstrip).dropWhile List.isEmpty) := rfl
  have hx1 : (((t.splitOn '\n').map pyRstrip).dropWhile List.isEmpty).head? = some x := by
    rw [← htl, List.head?_append_of_ne_nil]
    · rw [← hrd]; exact hx
    · rw [← hrd]; exact hne
  exact dropWhile_head_not List.isEmpty _ x hx1

lemma normLines_rdrop (t : Str) :
    ((normLines t).reverse.dropWhile List.isEmpty).reverse = normLines t := by
  have hrd : ∀ l : List Str, (l.reverse.dropWhile List.isEmpty).reverse =
      List.rdropWhile List.isEmpty l := fun _ => rfl
  rw [hrd]
  have : normLines t = List.rdropWhile List.isEmpty
      (((t.splitOn '\n').map pyRstrip).dropWhile List.isEmpty) := rfl
  rw [this, List.rdropWhile_idempotent]

lemma map_eq_self_of_mem {α : Type} (f : α → α) (l : List α)
    (h : ∀ x ∈ l, f x = x) : l.map f = l := by
  induction l with
  | nil => rfl
  | cons a as ih =>
    simp only [List.map_cons]
    rw [h a (List.mem_cons_self _ _), ih fun x hx => h x (List.mem_cons_of_mem _ hx)]

/-- Claim C5: screen-text normalization is idempotent — for every string T,
`normalize_screen (normalize_screen T) = normalize_screen T`. -/
theorem C5_normalize_idempotent (t : Str) :
    normalize_screen (normalize_screen t) = normalize_screen t := by
  rcases hL : normLines t with _ | ⟨q0, Lr⟩
  · show normalize_screen (List.intercalate ['\n'] (normLines t)) =
      List.intercalate ['\n'] (normLines t)
    rw [hL]
    rfl
  · have hLne : normLines t ≠ [] := by rw [hL]; simp
    show List.intercalate ['\n'] (normLines (List.intercalate ['\n'] (normLines t))) =
      List.intercalate ['\n'] (normLines t)
    have hsplit : (List.intercalate ['\n'] (normLines t)).splitOn '\n' = normLines t :=
      List.splitOn_intercalate (normLines t) '\n' (normLines_no_newline t) hLne
    have hmap : (normLines t).map pyRstrip = normLines t :=
      map_eq_self_of_mem pyRstrip (normLines t) (normLines_rstripped t)
    have hdrop : (normLines t).dropWhile List.isEmpty = normLines t :=
      dropWhile_eq_self_of_head List.isEmpty (normLines t) (normLines_head t)
    have : normLines (List.intercalate ['\n'] (normLines t)) = normLines t := by
      rw [normLines, hsplit, hmap, hdrop]
      exact normLines_rdrop t
    rw [this]

/-! ### SHA-256 (`hashlib.sha256(...).hexdigest()`)

`compute_digest` (screen_fingerprint.py lines 33-36) hashes the UTF-8
encoding of the normalized text with SHA-256 and renders the digest as a
lowercase hex string.  The hash is embedded here from FIPS 180-4; the round
and initialization constants are derived from the published definition
(fractional parts of cube/square roots of the first primes) rather than
transcribed, to rule out transcription slips. -/

namespace SHA256

/-- Truncate to a 32-bit word. -/
def w32 (x : Nat) : Nat := x % 4294967296

/-- 32-bit right rotation. -/
def rotr (x n : Nat) : Nat := w32 ((x >>> n) ||| (x <<< (32 - n)))

/-- 32-bit bitwise complement. -/
def bnot32 (x : Nat) : Nat := x ^^^ 4294967295

def ch (x y z : Nat) : Nat := (x &&& y) ^^^ (bnot32 x &&& z)

def maj (x y z : Nat) : Nat := (x &&& y) ^^^ (x &&& z) ^^^ (y &&& z)

def bigSigma0 (x : Nat) : Nat := rotr x 2 ^^^ rotr x 13 ^^^ rotr x 22

def bigSigma1 (x : Nat) : Nat := rotr x 6 ^^^ rotr x 11 ^^^ rotr x 25

def smallSigma0 (x : Nat) : Nat := rotr x 7 ^^^ rotr x 18 ^^^ (x >>> 3)

def smallSigma1 (x : Nat) : Nat := rotr x 17 ^^^ rotr x 19 ^^^ (x >>> 10)

/-- Integer cube root by bisection (enough fuel for arguments < 2^200). -/
def icbrtAux (n : Nat) : Nat → Nat → Nat → Nat
  | 0, lo, _ => lo
  | f+1, lo, hi =>
    if lo + 1 < hi then
      let mid := (lo + hi) / 2
      if mid * mid * mid ≤ n then icbrtAux n f mid hi else icbrtAux n f lo mid
    else lo

def icbrt (n : Nat) : Nat := icbrtAux n 200 0 (n + 1)

/-- The first 64 primes, whose cube roots yield the round constants. -/
def primes64 : List Nat :=
  [2, 3, 5, 7, 11, 13, 17, 19, 23, 29, 31, 37, 41, 43, 47, 53,
   59, 61, 67, 71, 73, 79, 83, 89, 97, 101, 103, 107, 109, 113, 127, 131,
   137, 139, 149, 151, 157, 163, 167, 173, 179, 181, 191, 193, 197, 199, 211, 223,
   227, 229, 233, 239, 241, 251, 257, 263, 269, 271, 277, 281, 283, 293, 307, 311]

/-- Round constant: first 32 fractional bits of the cube root of a prime. -/
def kOf (p : Nat) : Nat := icbrt (p <<< 96) - (icbrt p <<< 32)

def K : List Nat := primes64.map kOf

/-- Initial hash value: first 32 fractional bits of the square roots of the
first 8 primes. -/
def hOf (p : Nat) : Nat := Nat.sqrt (p <<< 64) - (Nat.sqrt p <<< 32)

def H0 : List Nat := (primes64.take 8).map hOf

/-- Big-endian bytes of the 64-bit message length (in bits). -/
def lengthBytes (bits : Nat) : List Nat :=
  [(bits >>> 56) % 256, (bits >>> 48) % 256, (bits >>> 40) % 256, (bits >>> 32) % 256,
   (bits >>> 24) % 256, (bits >>> 16) % 256, (bits >>> 8) % 256, bits % 256]

/-- SHA-256 padding: a 0x80 byte, zeros to 56 mod 64, then the bit length. -/
def padBytes (m : List Nat) : List Nat :=
  m ++ 128 :: List.replicate ((119 - m.length % 64) % 64) 0 ++ lengthBytes (8 * m.length)

/-- Group bytes into big-endian 32-bit words. -/
def toWords : List Nat → List Nat
  | b0 :: b1 :: b2 :: b3 :: rest =>
    ((((b0 <<< 8) ||| b1) <<< 8 ||| b2) <<< 8 ||| b3) :: toWords rest
  | _ => []

/-- Split into 64-byte blocks.  The fuel argument is the list length at
the top-level call: every step consumes at least one byte, so the fuel
never runs out (structural recursion keeps the definition
kernel-reducible). -/
def chunks64Aux : Nat → List Nat → List (List Nat)
  | 0, _ => []
  | _+1, [] => []
  | f+1, a :: rest => ((a :: rest).take 64) :: chunks64Aux f ((a :: rest).drop 64)

def chunks64 (l : List Nat) : List (List Nat) := chunks64Aux l.length l

/-- One message-schedule extension step (words 16..63). -/
def scheduleStep (ws : List Nat) : List Nat :=
  let i := ws.length
  ws ++ [w32 (smallSigma1 (ws.getD (i-2) 0) + ws.getD (i-7) 0 +
    smallSigma0 (ws.getD (i-15) 0) + ws.getD (i-16) 0)]

def scheduleAll (ws : List Nat) : List Nat :=
  (List.range 48).foldl (fun acc _ => scheduleStep acc) ws

/-- The eight working variables of the compression loop. -/
structure Hs where
  a : Nat
  b : Nat
  c : Nat
  d : Nat
  e : Nat
  f : Nat
  g : Nat
  h : Nat

def compressStep (st : Hs) (kw : Nat × Nat) : Hs :=
  let t1 := w32 (st.h + bigSigma1 st.e + ch st.e st.f st.g + kw.1 + kw.2)
  let t2 := w32 (bigSigma0 st.a + maj st.a st.b st.c)
  ⟨w32 (t1 + t2), st.a, st.b, st.c, w32 (st.d + t1), st.e, st.f, st.g⟩

def hsOfList (l : List Nat) : Hs :=
  ⟨l.getD 0 0, l.getD 1 0, l.getD 2 0, l.getD 3 0, l.getD 4 0, l.getD 5 0, l.getD 6 0, l.getD 7 0⟩

def processBlock (hv : Hs) (block : List Nat) : Hs :=
  let ws := scheduleAll (toWords block)
  let st := (K.zip ws).foldl compressStep hv
  ⟨w32 (hv.a + st.a), w32 (hv.b + st.b), w32 (hv.c + st.c), w32 (hv.d + st.d),
   w32 (hv.e + st.e), w32 (hv.f + st.f), w32 (hv.g + st.g), w32 (hv.h + st.h)⟩

/-- Big-endian bytes of one 32-bit word. -/
def wordBytes (w : Nat) : List Nat :=
  [(w >>> 24) % 256, (w >>> 16) % 256, (w >>> 8) % 256, w % 256]

/-- SHA-256 of a byte string, as 32 bytes. -/
def sha256Bytes (msg : List Nat) : List Nat :=
  let hv := (chunks64 (padBytes msg)).foldl processBlock (hsOfList H0)
  [hv.a, hv.b, hv.c, hv.d, hv.e, hv.f, hv.g, hv.h].flatMap wordBytes

end SHA256

/-- UTF-8 encoding of one character (Python `str.encode()`). -/
def utf8Char (c : Char) : List Nat :=
  let n := c.toNat
  if n < 128 then [n]
  else if n < 2048 then [192 ||| (n >>> 6), 128 ||| (n &&& 63)]
  else if n < 65536 then
    [224 ||| (n >>> 12), 128 ||| ((n >>> 6) &&& 63), 128 ||| (n &&& 63)]
  else
    [240 ||| (n >>> 18), 128 ||| ((n >>> 12) &&& 63), 128 ||| ((n >>> 6) &&& 63),
     128 ||| (n &&& 63)]

/-- UTF-8 encoding of a string. -/
def utf8Bytes (s : Str) : List Nat := s.flatMap utf8Char

/-- The sixteen lowercase hex digits, in value order. -/
def hexDigitChars : Str := "0123456789abcdef".toList

def hexChar (n : Nat) : Char := hexDigitChars.getD n '0'

/-- Two lowercase hex characters of one byte (Python `"%02x"`). -/
def byteHex (b : Nat) : Str := [hexChar (b / 16 % 16), hexChar (b % 16)]

/-- Python `bytes.hex()` / `hashlib...hexdigest()` rendering. -/
def hexOfBytes (bs : List Nat) : Str := bs.flatMap byteHex

/-- `screen_fingerprint.compute_digest` (lines 33-36): SHA-256 of the
UTF-8-encoded normalized screen text, as a lowercase hex string. -/
def compute_digest (t : Str) : Str :=
  hexOfBytes (SHA256.sha256Bytes (utf8Bytes (normalize_screen t)))

lemma sha256Bytes_length (m : List Nat) : (SHA256.sha256Bytes m).length = 32 := by
  simp [SHA256.sha256Bytes, SHA256.wordBytes]

lemma hexOfBytes_length (bs : List Nat) : (hexOfBytes bs).length = 2 * bs.length := by
  induction bs with
  | nil => rfl
  | cons b r ih =>
    simp only [hexOfBytes, List.flatMap_cons] at *
    simp [byteHex, ih]
    ring

lemma compute_digest_length (t : Str) : (compute_digest t).length = 64 := by
  unfold compute_digest
  rw [hexOfBytes_length, sha256Bytes_length]

lemma hexChar_mem : ∀ n, n < 16 → hexChar n ∈ hexDigitChars := by decide

lemma hexOfBytes_chars (bs : List Nat) : ∀ c ∈ hexOfBytes bs, c ∈ hexDigitChars := by
  induction bs with
  | nil => intro c hc; simp [hexOfBytes] at hc
  | cons b r ih =>
    intro c hc
    simp only [hexOfBytes, List.flatMap_cons, List.mem_append] at hc
    rcases hc with hc | hc
    · simp only [byteHex, List.mem_cons, List.mem_singleton] at hc
      rcases hc with hc | hc | hc
      · rw [hc]; exact hexChar_mem _ (Nat.mod_lt _ (by norm_num))
      · rw [hc]; exact hexChar_mem _ (Nat.mod_lt _ (by norm_num))
      · simp at hc
    · exact ih c hc

lemma compute_digest_chars (t : Str) : ∀ c ∈ compute_digest t, c ∈ hexDigitChars :=
  hexOfBytes_chars _

/-- Numeric value of a lowercase hex digit (used only to reason about digest
strings, not part of the embedded code). -/
def hexVal (c : Char) : Nat := hexDigitChars.indexOf c

/-- Base-16 value of a digest string (most significant digit first). -/
def digestNat (s : Str) : Nat := Nat.ofDigits 16 (s.reverse.map hexVal)

lemma hexVal_lt : ∀ c ∈ hexDigitChars, hexVal c < 16 := by decide

lemma hexVal_inj : ∀ c1 ∈ hexDigitChars, ∀ c2 ∈ hexDigitChars,
    hexVal c1 = hexVal c2 → c1 = c2 := by decide

lemma ofDigits16_inj : ∀ l1 l2 : List Nat, l1.length = l2.length →
    (∀ d ∈ l1, d < 16) → (∀ d ∈ l2, d < 16) →
    Nat.ofDigits 16 l1 = Nat.ofDigits 16 l2 → l1 = l2 := by
  intro l1
  induction l1 with
  | nil =>
    intro l2 hlen _ _ _
    exact (List.length_eq_zero.mp hlen.symm).symm
  | cons d1 r1 ih =>
    intro l2 hlen h1 h2 heq
    cases l2 with
    | nil => simp at hlen
    | cons d2 r2 =>
      rw [Nat.ofDigits_cons, Nat.ofDigits_cons] at heq
      have hd1 : d1 < 16 := h1 d1 (List.mem_cons_self _ _)
      have hd2 : d2 < 16 := h2 d2 (List.mem_cons_self _ _)
      have hd : d1 = d2 ∧ Nat.ofDigits 16 r1 = Nat.ofDigits 16 r2 := by omega
      have hr : r1 = r2 := ih r2 (by simpa using hlen)
        (fun d hd => h1 d (List.mem_cons_of_mem _ hd))
        (fun d hd => h2 d (List.mem_cons_of_mem _ hd)) hd.2
      rw [hd.1, hr]

lemma map_hexVal_inj : ∀ l1 l2 : Str, (∀ c ∈ l1, c ∈ hexDigitChars) →
    (∀ c ∈ l2, c ∈ hexDigitChars) → l1.map hexVal = l2.map hexVal → l1 = l2 := by
  intro l1
  induction l1 with
  | nil =>
    intro l2 _ _ h
    cases l2 with
    | nil => rfl
    | cons c r => simp at h
  | cons c1 r1 ih =>
    intro l2 h1 h2 h
    cases l2 with
    | nil => simp at h
    | cons c2 r2 =>
      simp only [List.map_cons, List.cons.injEq] at h
      have hc := hexVal_inj c1 (h1 c1 (List.mem_cons_self _ _)) c2
        (h2 c2 (List.mem_cons_self _ _)) h.1
      rw [hc, ih r2 (fun c hc => h1 c (List.mem_cons_of_mem _ hc))
        (fun c hc => h2 c (List.mem_cons_of_mem _ hc)) h.2]

lemma digestNat_inj (s1 s2 : Str) (h1 : ∀ c ∈ s1, c ∈ hexDigitChars)
    (h2 : ∀ c ∈ s2, c ∈ hexDigitChars) (hlen : s1.length = s2.length)
    (h : digestNat s1 = digestNat s2) : s1 = s2 := by
  unfold digestNat at h
  have hm : s1.reverse.map hexVal = s2.reverse.map hexVal := by
    apply ofDigits16_inj _ _ (by simp [hlen])
    · intro d hd
      rcases List.mem_map.mp hd with ⟨c, hc, hcd⟩
      exact hcd ▸ hexVal_lt c (h1 c (List.mem_reverse.mp hc))
    · intro d hd
      rcases List.mem_map.mp hd with ⟨c, hc, hcd⟩
      exact hcd ▸ hexVal_lt c (h2 c (List.mem_reverse.mp hc))
    · exact h
  have := map_hexVal_inj s1.reverse s2.reverse
    (fun c hc => h1 c (List.mem_reverse.mp hc))
    (fun c hc => h2 c (List.mem_reverse.mp hc)) hm
  have := congrArg List.reverse this
  simpa using this

lemma digestNat_lt (s : Str) (h : ∀ c ∈ s, c ∈ hexDigitChars) :
    digestNat s < 16 ^ s.length := by
  unfold digestNat
  have hb := Nat.ofDigits_lt_base_pow_length (b := 16) (l := s.reverse.map hexVal)
    (by norm_num)
    (by
      intro d hd
      rcases List.mem_map.mp hd with ⟨c, hc, hcd⟩
      exact hcd ▸ hexVal_lt c (h c (List.mem_reverse.mp hc)))
  simpa using hb

lemma pyRstrip_replicate_a (n : Nat) :
    pyRstrip (List.replicate (n+1) 'a') = List.replicate (n+1) 'a' := by
  unfold pyRstrip
  rw [List.reverse_replicate, List.replicate_succ, List.dropWhile_cons,
    if_neg (by decide), ← List.replicate_succ, List.reverse_replicate]

lemma normalize_replicate_a (n : Nat) :
    normalize_screen (List.replicate (n+1) 'a') = List.replicate (n+1) 'a' := by
  have hsplit : (List.replicate (n+1) 'a').splitOn '\n' = [List.replicate (n+1) 'a'] :=
    List.splitOnP_eq_single _ _ (fun x hx => by rw [List.eq_of_mem_replicate hx]; decide)
  have hne : (List.replicate (n+1) 'a').isEmpty = false := by
    rw [List.replicate_succ]; rfl
  have hdw : List.dropWhile List.isEmpty [List.replicate (n+1) 'a'] =
      [List.replicate (n+1) 'a'] := by
    rw [List.dropWhile_cons, if_neg (by simp [hne])]
  have hlines : normLines (List.replicate (n+1) 'a') = [List.replicate (n+1) 'a'] := by
    unfold normLines
    rw [hsplit]
    simp only [List.map_cons, List.map_nil, pyRstrip_replicate_a]
    rw [hdw, List.reverse_singleton, hdw, List.reverse_singleton]
  unfold normalize_screen
  rw [hlines]
  simp [List.intercalate]

/-- Claim C6 (amended): the digest function is deterministic — a pure
function always yielding a 64-character lowercase-hex string — and
normalized equality implies digest equality: for all T1 T2,
`normalize(T1) = normalize(T2) → digest(T1) = digest(T2)`.  The converse
direction of the original claim cannot hold universally (see the
counterexample theorem): it holds only up to SHA-256 collisions. -/
theorem C6_digest_deterministic_and_congruent :
    (∀ t : Str, (compute_digest t).length = 64 ∧ ∀ c ∈ compute_digest t, c ∈ hexDigitChars) ∧
    (∀ t1 t2 : Str, normalize_screen t1 = normalize_screen t2 →
      compute_digest t1 = compute_digest t2) := by
  constructor
  · intro t; exact ⟨compute_digest_length t, compute_digest_chars t⟩
  · intro t1 t2 h
    unfold compute_digest
    rw [h]

/-- Claim C6 counterexample: the claimed equivalence
`digest(T1) = digest(T2) ↔ normalize(T1) = normalize(T2)` is false: digests
are fixed-length strings, so by pigeonhole two inputs exist with distinct
normalized forms and equal digests (the refutation is existential: no
concrete SHA-256 collision is known). -/
theorem C6_digest_not_injective :
    ¬ (∀ t1 t2 : Str, compute_digest t1 = compute_digest t2 ↔
        normalize_screen t1 = normalize_screen t2) := by
  intro h
  have hbound : ∀ k : ℕ, digestNat (compute_digest (List.replicate (k+1) 'a')) < 16 ^ 64 := by
    intro k
    have := digestNat_lt (compute_digest (List.replicate (k+1) 'a')) (compute_digest_chars _)
    rwa [compute_digest_length] at this
  obtain ⟨n, m, hne, heq⟩ := Finite.exists_ne_map_eq_of_infinite
    (fun k : ℕ =>
      (⟨digestNat (compute_digest (List.replicate (k+1) 'a')), hbound k⟩ : Fin (16 ^ 64)))
  have hval : digestNat (compute_digest (List.replicate (n+1) 'a')) =
      digestNat (compute_digest (List.replicate (m+1) 'a')) := by
    have hv := congrArg Fin.val heq
    simpa using hv
  have hdig : compute_digest (List.replicate (n+1) 'a') =
      compute_digest (List.replicate (m+1) 'a') :=
    digestNat_inj _ _ (compute_digest_chars _) (compute_digest_chars _)
      (by rw [compute_digest_length, compute_digest_length]) hval
  have hnorm := (h _ _).mp hdig
  rw [normalize_replicate_a, normalize_replicate_a] at hnorm
  have hlen := congrArg List.length hnorm
  simp only [List.length_replicate] at hlen
  exact hne (by omega)

set_option maxRecDepth 4000 in
/-- Witness for C6 at a concrete input: "a \n" and "a" normalize equally,
hence their digests agree. -/
theorem C6_digest_witness :
    normalize_screen "a \n".toList = normalize_screen "a".toList ∧
    compute_digest "a \n".toList = compute_digest "a".toList := by
  constructor
  · decide
  · exact C6_digest_deterministic_and_congruent.2 _ _ (by decide)

/-! ### Field extractor (`tn3270_bridge/parser.py`) -/

/-- Python `str.lower()` (ASCII case folding; the attribute codes involved
are ASCII). -/
def pyLower (s : Str) : Str := s.map Char.toLower

/-- `parser.parse_color` (parser.py lines 140-154). -/
def parse_color (code : Str) : Str :=
  let colors : List (Str × Str) :=
    [("f0".toList, "neutral".toList), ("f1".toList, "blue".toList),
     ("f2".toList, "red".toList), ("f3".toList, "pink".toList),
     ("f4".toList, "green".toList), ("f5".toList, "turquoise".toList),
     ("f6".toList, "yellow".toList), ("f7".toList, "white".toList),
     ("f8".toList, "black".toList), ("f9".toList, "deep_blue".toList)]
  match colors.lookup (pyLower code) with
  | some name => name
  | none => code

def isHexDigitCh (c : Char) : Bool :=
  c.isDigit || ('a' ≤ c && c ≤ 'f') || ('A' ≤ c && c ≤ 'F')

def hexDigitVal (c : Char) : Nat :=
  if c.isDigit then c.toNat - 48
  else if 'a' ≤ c && c ≤ 'f' then c.toNat - 87
  else c.toNat - 55

/-- Hex digits after the first one: single underscores may separate digits
(Python numeric-literal grammar). -/
def hexMore (acc : Nat) : Str → Option Nat
  | [] => some acc
  | '_' :: c :: rest => if isHexDigitCh c then hexMore (16 * acc + hexDigitVal c) rest else none
  | c :: rest => if isHexDigitCh c then hexMore (16 * acc + hexDigitVal c) rest else none

/-- A nonempty run of hex digits with optional single separating
underscores. -/
def hexCore : Str → Option Nat
  | [] => none
  | c :: rest => if isHexDigitCh c then hexMore (hexDigitVal c) rest else none

/-- Modelled: Python `int(s, 16)` on an already-stripped string — optional
sign, optional 0x/0X prefix (optionally followed by one underscore), then
hex digits with single underscores between them.  Returns `none` where
Python raises ValueError. -/
def pyIntHex (s : Str) : Option Int :=
  let signed : Bool × Str :=
    match s with
    | '+' :: r => (false, r)
    | '-' :: r => (true, r)
    | _ => (false, s)
  let body : Str :=
    match signed.2 with
    | '0' :: 'x' :: r => (match r with | '_' :: r2 => r2 | _ => r)
    | '0' :: 'X' :: r => (match r with | '_' :: r2 => r2 | _ => r)
    | _ => signed.2
  match hexCore body with
  | some n => some (if signed.1 then -(n : Int) else (n : Int))
  | none => none

/-- Python bitwise AND of an arbitrary-precision int with a nonnegative
mask, two's-complement semantics for negatives:
`(-(k+1)) &&& m = m - (k &&& m)`. -/
def pyAndMask (b : Int) (m : Nat) : Nat :=
  match b with
  | Int.ofNat n => n &&& m
  | Int.negSucc k => m - (k &&& m)

/-- The attribute dictionary built by `parse_field_attributes`
(parser.py lines 96-103 plus the optional extended keys).  `protected` is a
Lean keyword, hence the trailing underscore. -/
structure FieldAttrs where
  protected_ : Bool := false
  numeric : Bool := false
  intensified : Bool := false
  hidden : Bool := false
  modified : Bool := false
  detectable : Bool := false
  highlighting : Option Str := none
  fg_color : Option Str := none
  bg_color : Option Str := none
deriving DecidableEq

/-- One iteration of the pair loop of `parse_field_attributes`
(parser.py lines 106-136). -/
def applyAttrPair (attrs : FieldAttrs) (pair : Str) : FieldAttrs :=
  let p := pyStrip pair
  if '=' ∈ p then
    let key := pyStrip (p.takeWhile (fun c => c ≠ '='))
    let value := pyStrip ((p.dropWhile (fun c => c ≠ '=')).drop 1)
    if key = "c0".toList then
      match pyIntHex value with
      | some b =>
        { attrs with
          protected_ := pyAndMask b 32 ≠ 0
          numeric := pyAndMask b 16 ≠ 0
          intensified := pyAndMask b 8 ≠ 0
          hidden := pyAndMask b 12 = 12
          detectable := pyAndMask b 4 ≠ 0
          modified := pyAndMask b 1 ≠ 0 }
      | none => attrs
    else if key = "41".toList then { attrs with highlighting := some value }
    else if key = "42".toList then { attrs with fg_color := some (parse_color value) }
    else if key = "45".toList then { attrs with bg_color := some (parse_color value) }
    else attrs
  else attrs

/-- `parser.parse_field_attributes` (parser.py lines 83-138). -/
def parse_field_attributes (attrs_str : Str) : FieldAttrs :=
  (attrs_str.splitOn ',').foldl applyAttrPair {}

/-- Attribute-group scan after the first group character: the group
characters up to (excluding) the first closing parenthesis, and the count
of consumed characters including it. -/
def scanAttrAux : Str → Option (Str × Nat)
  | [] => none
  | c :: rest =>
    if c = ')' then some ([], 1)
    else
      match scanAttrAux rest with
      | some (cs, n) => some (c :: cs, n + 1)
      | none => none

/-- The regex group `[^)]+` followed by `)`: at least one non-parenthesis
character. -/
def scanAttr : Str → Option (Str × Nat)
  | [] => none
  | c :: rest =>
    if c = ')' then none
    else
      match scanAttrAux rest with
      | some (cs, n) => some (c :: cs, n + 1)
      | none => none

/-- A match of the regex `SF\(([^)]+)\)` anchored at the head of the
string: the group characters and the total match length. -/
def sfMatchAt : Str → Option (Str × Nat)
  | 'S' :: 'F' :: '(' :: rest =>
    (match scanAttr rest with
     | some (cs, n) => some (cs, n + 3)
     | none => none)
  | _ => none

/-- `re.finditer` over one line: non-overlapping matches, earliest first,
as (start index, match length, attribute group).  The fuel argument equals
the string length at the top-level call; every step consumes at least one
character. -/
def sfFindAux : Nat → Str → Nat → List (Nat × Nat × Str)
  | 0, _, _ => []
  | _+1, [], _ => []
  | fuel+1, c :: rest, pos =>
    match sfMatchAt (c :: rest) with
    | some (cs, len) => (pos, len, cs) :: sfFindAux fuel ((c :: rest).drop len) (pos + len)
    | none => sfFindAux fuel rest (pos + 1)

def sfFinditer (s : Str) : List (Nat × Nat × Str) := sfFindAux s.length s 0

/-- One field dictionary produced by `parse_readbuffer_ascii`
(parser.py lines 58-64): 1-based start position, signed length (the source
computes it with Python ints, which can go negative), protected flag and
the decoded attribute set. -/
structure PField where
  row : Nat
  col : Nat
  len : Int
  protected_ : Bool
  attrs : FieldAttrs
deriving DecidableEq

/-- Length assigned when a field is closed by the next marker
(parser.py lines 43-50). -/
def closeLen (cols : Nat) (f : PField) (endRow endCol : Nat) : Int :=
  if endRow = f.row then (endCol : Int) - (f.col : Int)
  else ((cols : Int) - (f.col : Int) + 1) +
    ((endRow : Int) - (f.row : Int) - 1) * (cols : Int) + (endCol : Int)

/-- The inner loop over the SF matches of one data line
(parser.py lines 32-67).  State: (col_offset, current_field, fields).
`current_col` is invariantly 1 in the source (initialized at line 19,
reset at line 71, never modified in between), so the new field's column
(line 60) is written `1 + col_offset + start`. -/
def processMatches (cols row : Nat) :
    List (Nat × Nat × Str) → Nat → Option PField → List PField →
    Option PField × List PField
  | [], _, cur, fs => (cur, fs)
  | (i, len, a) :: ms, o, cur, fs =>
    let fs' := match cur with
      | some f => fs ++ [{ f with len := closeLen cols f row (o + i) }]
      | none => fs
    let attrs := parse_field_attributes a
    let nf : PField := ⟨row, 1 + o + i, 0, attrs.protected_, attrs⟩
    processMatches cols row ms (o + len) (some nf) fs'

/-- The outer loop over buffer lines (parser.py lines 21-71): non-data
lines are skipped without advancing the row counter; each data line is
scanned for SF markers after removing the "data:" prefix. -/
def processLines (cols : Nat) :
    List Str → Nat → Option PField → List PField → Option PField × List PField
  | [], _, cur, fs => (cur, fs)
  | l :: ls, row, cur, fs =>
    if l = [] || l = "ok".toList || l = "error".toList then
      processLines cols ls row cur fs
    else if "data:".toList.isPrefixOf l then
      match processMatches cols row (sfFinditer (l.drop 5)) 0 cur fs with
      | (cur2, fs2) => processLines cols ls (row + 1) cur2 fs2
    else
      processLines cols ls row cur fs

/-- `parser.parse_readbuffer_ascii` (parser.py lines 6-81): scan all lines,
then close the final open field to the end of the screen
(lines 74-79). -/
def parse_readbuffer_ascii (lines : List Str) (rows cols : Nat) : List PField :=
  match processLines cols lines 1 none [] with
  | (some f, fs) =>
    fs ++ [{ f with
      len := ((cols : Int) - (f.col : Int) + 1) + ((rows : Int) - (f.row : Int)) * (cols : Int) }]
  | (none, fs) => fs

/-- The number of field-start markers of a buffer dump: SF matches summed
over the lines the parser scans. -/
def countMarkers (lines : List Str) : Nat :=
  (lines.map (fun l =>
    if l = [] || l = "ok".toList || l = "error".toList then 0
    else if "data:".toList.isPrefixOf l then (sfFinditer (l.drop 5)).length
    else 0)).sum

lemma land_absorb_of_land12_eq (n m : ℕ) (hm : 12 &&& m = m) (h : n &&& 12 = 12) :
    n &&& m = m := by
  calc n &&& m = n &&& (12 &&& m) := by rw [hm]
    _ = (n &&& 12) &&& m := (Nat.land_assoc n 12 m).symm
    _ = 12 &&& m := by rw [h]
    _ = m := hm

lemma land_zero_of_land12_zero (k m : ℕ) (hm : 12 &&& m = m) (h0 : k &&& 12 = 0) :
    k &&& m = 0 := by
  calc k &&& m = k &&& (12 &&& m) := by rw [hm]
    _ = (k &&& 12) &&& m := (Nat.land_assoc k 12 m).symm
    _ = 0 &&& m := by rw [h0]
    _ = 0 := by simp

lemma pyAndMask_hidden_imp (b : Int) (h : pyAndMask b 12 = 12) :
    pyAndMask b 8 = 8 ∧ pyAndMask b 4 = 4 := by
  cases b with
  | ofNat n =>
    simp only [pyAndMask] at h ⊢
    exact ⟨land_absorb_of_land12_eq n 8 (by decide) h,
      land_absorb_of_land12_eq n 4 (by decide) h⟩
  | negSucc k =>
    simp only [pyAndMask] at h ⊢
    have hle : k &&& 12 ≤ 12 := Nat.and_le_right
    have h0 : k &&& 12 = 0 := by omega
    have h8 : k &&& 8 = 0 := land_zero_of_land12_zero k 8 (by decide) h0
    have h4 : k &&& 4 = 0 := land_zero_of_land12_zero k 4 (by decide) h0
    omega

/-- Invariant of the decoded flag set: a hidden field is intensified and
detectable (the hidden nibble 0x0C contains both the 0x08 and 0x04
bits). -/
def goodAttrs (a : FieldAttrs) : Prop :=
  a.hidden = true → a.intensified = true ∧ a.detectable = true

lemma applyAttrPair_good (a : FieldAttrs) (pair : Str) (h : goodAttrs a) :
    goodAttrs (applyAttrPair a pair) := by
  unfold applyAttrPair
  by_cases he : '=' ∈ pyStrip pair
  · simp only [if_pos he]
    by_cases hk : pyStrip ((pyStrip pair).takeWhile (fun c => c ≠ '=')) = "c0".toList
    · simp only [if_pos hk]
      rcases hb : pyIntHex (pyStrip (((pyStrip pair).dropWhile (fun c => c ≠ '=')).drop 1))
        with _ | b
      · exact h
      · intro hh
        simp only [decide_eq_true_eq] at hh
        have := pyAndMask_hidden_imp b hh
        simp only [decide_eq_true_eq, ne_eq, decide_not]
        constructor
        · simp [this.1]
        · simp [this.2]
    · simp only [if_neg hk]
      by_cases h41 : pyStrip ((pyStrip pair).takeWhile (fun c => c ≠ '=')) = "41".toList
      · simp only [if_pos h41]; exact h
      · simp only [if_neg h41]
        by_cases h42 : pyStrip ((pyStrip pair).takeWhile (fun c => c ≠ '=')) = "42".toList
        · simp only [if_pos h42]; exact h
        · simp only [if_neg h42]
          by_cases h45 : pyStrip ((pyStrip pair).takeWhile (fun c => c ≠ '=')) = "45".toList
          · simp only [if_pos h45]; exact h
          · simp only [if_neg h45]; exact h
  · simp only [if_neg he]; exact h

lemma foldl_preserve {α β : Type} (P : α → Prop) (f : α → β → α) :
    ∀ (l : List β) (a : α), P a → (∀ x b, b ∈ l → P x → P (f x b)) → P (l.foldl f a) := by
  intro l
  induction l with
  | nil => intro a ha _; exact ha
  | cons b r ih =>
    intro a ha hstep
    exact ih (f a b) (hstep a b (List.mem_cons_self _ _) ha)
      (fun x c hc hx => hstep x c (List.mem_cons_of_mem _ hc) hx)

/-- A pair of the attribute string whose c0 value (if it is a c0 pair at
all) fails to parse as hex. -/
def c0Unparseable (pair : Str) : Bool :=
  let p := pyStrip pair
  if '=' ∈ p then
    let key := pyStrip (p.takeWhile (fun c => c ≠ '='))
    let value := pyStrip ((p.dropWhile (fun c => c ≠ '=')).drop 1)
    key ≠ "c0".toList || (pyIntHex value).isNone
  else true

/-- No pair of the attribute string carries a hex-parseable c0 value. -/
def noParsableC0 (s : Str) : Bool := (s.splitOn ',').all c0Unparseable

/-- The six boolean flags all decode to False. -/
def sixFalse (a : FieldAttrs) : Prop :=
  a.protected_ = false ∧ a.numeric = false ∧ a.intensified = false ∧
  a.hidden = false ∧ a.modified = false ∧ a.detectable = false

lemma applyAttrPair_sixFalse (a : FieldAttrs) (pair : Str)
    (hp : c0Unparseable pair = true) (h : sixFalse a) :
    sixFalse (applyAttrPair a pair) := by
  unfold applyAttrPair
  unfold c0Unparseable at hp
  by_cases he : '=' ∈ pyStrip pair
  · simp only [if_pos he] at hp ⊢
    by_cases hk : pyStrip ((pyStrip pair).takeWhile (fun c => c ≠ '=')) = "c0".toList
    · simp only [if_pos hk]
      simp only [hk] at hp
      simp only [ne_eq, not_true_eq_false, decide_False, Bool.false_or] at hp
      rcases hb : pyIntHex (pyStrip (((pyStrip pair).dropWhile (fun c => c ≠ '=')).drop 1))
        with _ | b
      · exact h
      · rw [hb] at hp; simp at hp
    · simp only [if_neg hk]
      by_cases h41 : pyStrip ((pyStrip pair).takeWhile (fun c => c ≠ '=')) = "41".toList
      · simp only [if_pos h41]; exact h
      · simp only [if_neg h41]
        by_cases h42 : pyStrip ((pyStrip pair).takeWhile (fun c => c ≠ '=')) = "42".toList
        · simp only [if_pos h42]; exact h
        · simp only [if_neg h42]
          by_cases h45 : pyStrip ((pyStrip pair).takeWhile (fun c => c ≠ '=')) = "45".toList
          · simp only [if_pos h45]; exact h
          · simp only [if_neg h45]; exact h
  · simp only [if_neg he]; exact h

/-- Claim C10: attribute decoding keeps the flag implication invariant —
whenever the decoded field is hidden (0x0C nibble) it is also intensified
and detectable — and an attribute string with no hex-parseable c0 value
decodes with all six boolean flags False instead of raising. -/
theorem C10_attribute_flag_invariant :
    (∀ s : Str, (parse_field_attributes s).hidden = true →
      (parse_field_attributes s).intensified = true ∧
      (parse_field_attributes s).detectable = true) ∧
    (∀ s : Str, noParsableC0 s = true → sixFalse (parse_field_attributes s)) := by
  constructor
  · intro s
    exact foldl_preserve goodAttrs applyAttrPair (s.splitOn ',') {}
      (by intro hh; simp at hh)
      (fun x b _ hx => applyAttrPair_good x b hx)
  · intro s hs
    exact foldl_preserve sixFalse applyAttrPair (s.splitOn ',') {}
      (by refine ⟨rfl, rfl, rfl, rfl, rfl, rfl⟩)
      (fun x b hb hx => applyAttrPair_sixFalse x b (List.all_eq_true.mp hs b hb) hx)

/-- Witness for C10 at concrete inputs: "c0=2c" decodes hidden (hence
intensified and detectable), and "c0=zz, 41=f1" has no parseable c0, so all
flags decode False. -/
theorem C10_attribute_flag_witness :
    ((parse_field_attributes "c0=2c".toList).hidden = true ∧
      (parse_field_attributes "c0=2c".toList).intensified = true ∧
      (parse_field_attributes "c0=2c".toList).detectable = true) ∧
    sixFalse (parse_field_attributes "c0=zz, 41=f1".toList) := by
  constructor
  · have h1 : (parse_field_attributes "c0=2c".toList).hidden = true := by decide
    have h2 := C10_attribute_flag_invariant.1 "c0=2c".toList h1
    exact ⟨h1, h2.1, h2.2⟩
  · exact C10_attribute_flag_invariant.2 "c0=zz, 41=f1".toList (by decide)

/-- Row-major absolute position of a field start (1-based). -/
def absPos (cols : Nat) (f : PField) : Int :=
  ((f.row : Int) - 1) * (cols : Int) + (f.col : Int)

/-- Number of open fields carried by the scan state (0 or 1). -/
def openCount (cur : Option PField) : Nat :=
  match cur with
  | some _ => 1
  | none => 0

lemma sfMatchAt_len_pos {s : Str} {cs : Str} {len : Nat}
    (h : sfMatchAt s = some (cs, len)) : 1 ≤ len := by
  unfold sfMatchAt at h
  split at h
  · rcases hsc : scanAttr _ with _ | ⟨cs2, n⟩ <;> rw [hsc] at h
    · exact absurd h (by simp)
    · simp only [Option.some.injEq, Prod.mk.injEq] at h
      omega
  · exact absurd h (by simp)

lemma sfFindAux_pos_le :
    ∀ (fuel : Nat) (s : Str) (pos : Nat), ∀ m ∈ sfFindAux fuel s pos, pos ≤ m.1 := by
  intro fuel
  induction fuel with
  | zero => intro s pos m hm; simp [sfFindAux] at hm
  | succ n ih =>
    intro s pos m hm
    cases s with
    | nil => simp [sfFindAux] at hm
    | cons c rest =>
      simp only [sfFindAux] at hm
      split at hm
      · rename_i cs len _
        rcases List.mem_cons.mp hm with h | h
        · rw [h]
        · have := ih _ _ m h
          omega
      · exact le_trans (Nat.le_succ pos) (ih _ _ m hm)

lemma sfFindAux_gap :
    ∀ (fuel : Nat) (s : Str) (pos : Nat),
      List.Chain' (fun x y : Nat × Nat × Str => x.1 + x.2.1 ≤ y.1) (sfFindAux fuel s pos) := by
  intro fuel
  induction fuel with
  | zero => intro s pos; simp [sfFindAux]
  | succ n ih =>
    intro s pos
    cases s with
    | nil => simp [sfFindAux]
    | cons c rest =>
      simp only [sfFindAux]
      split
      · rename_i cs len _
        apply List.Chain'.cons'
        · exact ih _ _
        · intro y hy
          have hmem : y ∈ sfFindAux n ((c :: rest).drop len) (pos + len) :=
            List.mem_of_mem_head? hy
          exact sfFindAux_pos_le n _ _ y hmem
      · exact ih _ _

lemma sfFindAux_len1 :
    ∀ (fuel : Nat) (s : Str) (pos : Nat), ∀ m ∈ sfFindAux fuel s pos, 1 ≤ m.2.1 := by
  intro fuel
  induction fuel with
  | zero => intro s pos m hm; simp [sfFindAux] at hm
  | succ n ih =>
    intro s pos m hm
    cases s with
    | nil => simp [sfFindAux] at hm
    | cons c rest =>
      simp only [sfFindAux] at hm
      split at hm
      · rename_i cs len heq
        rcases List.mem_cons.mp hm with h | h
        · rw [h]; exact sfMatchAt_len_pos heq
        · exact ih _ _ m h
      · exact ih _ _ m hm

/-- Non-overlap relation between consecutive fields: the earlier field's
row-major span ends no later than the next field's start. -/
def Rc (cols : Nat) (f g : PField) : Prop :=
  absPos cols f + f.len ≤ absPos cols g

/-- Invariant of the open field during the scan of one line: it was opened
on an earlier row or, if on this row, before the next match (so the
distance computation cannot go negative within a row). -/
def CurOk (row o : Nat) (ms : List (Nat × Nat × Str)) (f : PField) : Prop :=
  f.row ≤ row ∧ (f.row = row → ∀ m, ms.head? = some m → f.col ≤ o + m.1)

/-- The last already-closed field ends no later than the open field's
start. -/
def LastLink (cols : Nat) (fs : List PField) (f : PField) : Prop :=
  ∀ g, fs.getLast? = some g → absPos cols g + g.len ≤ absPos cols f

lemma absPos_set_len (cols : Nat) (f : PField) (v : Int) :
    absPos cols { f with len := v } = absPos cols f := rfl

lemma close_link (cols row o i : Nat) (f : PField) (hrow : f.row ≤ row) :
    absPos cols f + closeLen cols f row (o + i) ≤
      ((row : Int) - 1) * (cols : Int) + (1 + (o : Int) + (i : Int)) := by
  unfold absPos closeLen
  by_cases h : row = f.row
  · rw [if_pos h]
    subst h
    push_cast
    linarith
  · rw [if_neg h]
    have : ((f.row : Int) - 1) * (cols : Int) + (f.col : Int) +
        (((cols : Int) - (f.col : Int) + 1) +
          ((row : Int) - (f.row : Int) - 1) * (cols : Int) + ((o : Nat) + (i : Nat) : Nat)) =
        ((row : Int) - 1) * (cols : Int) + (1 + (o : Int) + (i : Int)) := by
      push_cast
      ring
    exact le_of_eq this

lemma close_nonneg_same (cols row o i : Nat) (f : PField)
    (hrow : f.row = row) (hcol : f.col ≤ o + i) :
    0 ≤ closeLen cols f row (o + i) := by
  unfold closeLen
  rw [if_pos hrow.symm]
  push_cast
  omega

lemma close_nonneg_cross (cols row o i : Nat) (f : PField)
    (hlt : f.row < row) (hcol : (f.col : Int) ≤ (cols : Int)) :
    0 ≤ closeLen cols f row (o + i) := by
  unfold closeLen
  rw [if_neg (by omega)]
  have h1 : (0 : Int) ≤ (cols : Int) - (f.col : Int) + 1 := by linarith
  have h2 : (0 : Int) ≤ ((row : Int) - (f.row : Int) - 1) * (cols : Int) := by
    apply mul_nonneg
    · have : (f.row : Int) < (row : Int) := by exact_mod_cast hlt
      linarith
    · positivity
  have h3 : (0 : Int) ≤ ((o + i : Nat) : Int) := by positivity
  linarith

lemma openCount_some (f : PField) : openCount (some f) = 1 := rfl

lemma openCount_none : openCount none = 0 := rfl

lemma processMatches_spec (cols row : Nat) :
    ∀ (ms : List (Nat × Nat × Str)) (o : Nat) (cur : Option PField) (fs : List PField),
    List.Chain' (fun x y : Nat × Nat × Str => x.1 + x.2.1 ≤ y.1) ms →
    (∀ m ∈ ms, 1 ≤ m.2.1) →
    List.Chain' (Rc cols) fs →
    (∀ f ∈ fs, (f.col : Int) ≤ (cols : Int) → 0 ≤ f.len) →
    (cur = none → fs = []) →
    (∀ f, cur = some f → CurOk row o ms f ∧ LastLink cols fs f) →
    List.Chain' (Rc cols) (processMatches cols row ms o cur fs).2 ∧
    (∀ f ∈ (processMatches cols row ms o cur fs).2, (f.col : Int) ≤ (cols : Int) → 0 ≤ f.len) ∧
    ((processMatches cols row ms o cur fs).1 = none →
      (processMatches cols row ms o cur fs).2 = []) ∧
    (∀ f, (processMatches cols row ms o cur fs).1 = some f →
      f.row ≤ row ∧ LastLink cols (processMatches cols row ms o cur fs).2 f) ∧
    ((processMatches cols row ms o cur fs).2.length +
      openCount (processMatches cols row ms o cur fs).1 =
      fs.length + openCount cur + ms.length) := by
  intro ms
  induction ms with
  | nil =>
    intro o cur fs _ _ hchain hnn hnil hcur
    refine ⟨hchain, hnn, ?_, ?_, ?_⟩
    · intro h; exact hnil h
    · intro f hf
      rcases hcur f hf with ⟨hok, hlink⟩
      exact ⟨hok.1, hlink⟩
    · simp [processMatches]
  | cons m ms ih =>
    intro o cur fs hgap hlen1 hchain hnn hnil hcur
    rcases m with ⟨i, L, a⟩
    have hgap' := (List.chain'_cons'.mp hgap).2
    have hhead := (List.chain'_cons'.mp hgap).1
    have hL : 1 ≤ L := hlen1 (i, L, a) (List.mem_cons_self _ _)
    have hlen1' : ∀ m ∈ ms, 1 ≤ m.2.1 := fun m hm => hlen1 m (List.mem_cons_of_mem _ hm)
    rcases hc : cur with _ | f
    · -- no open field: the first marker just opens one
      have hfs : fs = [] := hnil hc
      subst hfs
      have hstep : processMatches cols row ((i, L, a) :: ms) o none [] =
          processMatches cols row ms (o + L) (some ⟨row, 1 + o + i, 0,
            (parse_field_attributes a).protected_, parse_field_attributes a⟩) [] := by
        simp [processMatches]
      rw [hstep]
      have := ih (o + L) (some ⟨row, 1 + o + i, 0,
          (parse_field_attributes a).protected_, parse_field_attributes a⟩) []
        hgap' hlen1' List.chain'_nil (by simp) (by intro h; exact absurd h (by simp))
        (by
          intro g hg
          injection hg with hg
          constructor
          · constructor
            · rw [← hg]
            · intro _ m hm
              have hgm : i + L ≤ m.1 := hhead m hm
              rw [← hg]
              simp only
              omega
          · intro g2 hg2
            simp at hg2)
      refine ⟨this.1, this.2.1, this.2.2.1, this.2.2.2.1, ?_⟩
      have hcount := this.2.2.2.2
      simp only [List.length_nil, List.length_cons, openCount_some, openCount_none]
        at hcount ⊢
      omega
    · -- an open field is closed by this marker
      rcases hcur f hc with ⟨⟨hfle, hfcol⟩, hlink⟩
      have hstep : processMatches cols row ((i, L, a) :: ms) o (some f) fs =
          processMatches cols row ms (o + L) (some ⟨row, 1 + o + i, 0,
            (parse_field_attributes a).protected_, parse_field_attributes a⟩)
            (fs ++ [{ f with len := closeLen cols f row (o + i) }]) := by
        simp [processMatches]
      rw [hstep]
      have hclosednn : ∀ g ∈ [{ f with len := closeLen cols f row (o + i) }],
          (g.col : Int) ≤ (cols : Int) → 0 ≤ g.len := by
        intro g hg hcol
        rw [List.mem_singleton] at hg
        subst hg
        by_cases hr : f.row = row
        · exact close_nonneg_same cols row o i f hr
            (hfcol hr (i, L, a) rfl)
        · exact close_nonneg_cross cols row o i f (by omega) hcol
      have hchain' : List.Chain' (Rc cols) (fs ++ [{ f with len := closeLen cols f row (o + i) }]) := by
        rw [List.chain'_append]
        refine ⟨hchain, List.chain'_singleton _, ?_⟩
        intro x hx y hy
        simp only [List.head?_cons, Option.mem_def, Option.some.injEq] at hy
        subst hy
        have := hlink x (Option.mem_def.mp hx)
        unfold Rc
        rw [absPos_set_len]
        exact this
      have hnn' : ∀ g ∈ fs ++ [{ f with len := closeLen cols f row (o + i) }],
          (g.col : Int) ≤ (cols : Int) → 0 ≤ g.len := by
        intro g hg
        rcases List.mem_append.mp hg with h | h
        · exact hnn g h
        · exact hclosednn g h
      have := ih (o + L) (some ⟨row, 1 + o + i, 0,
          (parse_field_attributes a).protected_, parse_field_attributes a⟩)
        (fs ++ [{ f with len := closeLen cols f row (o + i) }])
        hgap' hlen1' hchain' hnn' (by intro h; exact absurd h (by simp))
        (by
          intro g hg
          injection hg with hg
          constructor
          · constructor
            · rw [← hg]
            · intro _ m hm
              have hgm : i + L ≤ m.1 := hhead m hm
              rw [← hg]
              simp only
              omega
          · intro g2 hg2
            rw [List.getLast?_concat] at hg2
            injection hg2 with hg2
            rw [← hg2, ← hg]
            have h1 := close_link cols row o i f hfle
            rw [absPos_set_len]
            simp only
            unfold absPos
            simp only
            push_cast
            push_cast at h1
            unfold absPos at h1
            linarith)
      refine ⟨this.1, this.2.1, this.2.2.1, this.2.2.2.1, ?_⟩
      have hcount := this.2.2.2.2
      simp only [List.length_append, List.length_singleton, List.length_cons,
        List.length_nil, openCount_some, openCount_none] at hcount ⊢
      omega

lemma countMarkers_cons (l : Str) (ls : List Str) :
    countMarkers (l :: ls) =
      (if l = [] || l = "ok".toList || l = "error".toList then 0
       else if "data:".toList.isPrefixOf l then (sfFinditer (l.drop 5)).length
       else 0) + countMarkers ls := by
  simp [countMarkers]

lemma processLines_spec (cols : Nat) :
    ∀ (ls : List Str) (row : Nat) (cur : Option PField) (fs : List PField),
    List.Chain' (Rc cols) fs →
    (∀ f ∈ fs, (f.col : Int) ≤ (cols : Int) → 0 ≤ f.len) →
    (cur = none → fs = []) →
    (∀ f, cur = some f → f.row < row ∧ LastLink cols fs f) →
    List.Chain' (Rc cols) (processLines cols ls row cur fs).2 ∧
    (∀ f ∈ (processLines cols ls row cur fs).2, (f.col : Int) ≤ (cols : Int) → 0 ≤ f.len) ∧
    ((processLines cols ls row cur fs).1 = none → (processLines cols ls row cur fs).2 = []) ∧
    (∀ f, (processLines cols ls row cur fs).1 = some f →
      LastLink cols (processLines cols ls row cur fs).2 f) ∧
    ((processLines cols ls row cur fs).2.length + openCount (processLines cols ls row cur fs).1
      = fs.length + openCount cur + countMarkers ls) := by
  intro ls
  induction ls with
  | nil =>
    intro row cur fs hchain hnn hnil hcur
    refine ⟨hchain, hnn, hnil, ?_, ?_⟩
    · intro f hf
      exact (hcur f hf).2
    · simp [processLines, countMarkers]
  | cons l ls ih =>
    intro row cur fs hchain hnn hnil hcur
    rw [countMarkers_cons]
    by_cases hskip : (l = [] || l = "ok".toList || l = "error".toList) = true
    · have hstep : processLines cols (l :: ls) row cur fs = processLines cols ls row cur fs := by
        simp only [processLines]
        rw [if_pos hskip]
      rw [hstep, if_pos hskip]
      have := ih row cur fs hchain hnn hnil hcur
      refine ⟨this.1, this.2.1, this.2.2.1, this.2.2.2.1, ?_⟩
      rw [this.2.2.2.2]
      omega
    · rw [Bool.not_eq_true] at hskip
      by_cases hdata : "data:".toList.isPrefixOf l = true
      · rcases hpm : processMatches cols row (sfFinditer (l.drop 5)) 0 cur fs with ⟨cur2, fs2⟩
        have hstep : processLines cols (l :: ls) row cur fs =
            processLines cols ls (row + 1) cur2 fs2 := by
          simp only [processLines, hskip, Bool.false_eq_true, if_false, hpm, hdata, if_true]
        have hms := processMatches_spec cols row (sfFinditer (l.drop 5)) 0 cur fs
          (sfFindAux_gap _ _ _) (sfFindAux_len1 _ _ _) hchain hnn hnil
          (by
            intro f hf
            rcases hcur f hf with ⟨hlt, hlink⟩
            refine ⟨⟨Nat.le_of_lt hlt, ?_⟩, hlink⟩
            intro heq
            exact absurd heq (by omega))
        have hfst : (processMatches cols row (sfFinditer (l.drop 5)) 0 cur fs).1 = cur2 := by
          rw [hpm]
        have hsnd : (processMatches cols row (sfFinditer (l.drop 5)) 0 cur fs).2 = fs2 := by
          rw [hpm]
        rw [hfst, hsnd] at hms
        have := ih (row + 1) cur2 fs2 hms.1 hms.2.1 hms.2.2.1
          (by
            intro f hf
            rcases hms.2.2.2.1 f hf with ⟨hle, hlink⟩
            exact ⟨by omega, hlink⟩)
        rw [hstep]
        have hc2 := hms.2.2.2.2
        refine ⟨this.1, this.2.1, this.2.2.1, this.2.2.2.1, ?_⟩
        rw [this.2.2.2.2, hskip]
        simp only [Bool.false_eq_true, if_false, hdata, if_true]
        omega
      · rw [Bool.not_eq_true] at hdata
        have hstep : processLines cols (l :: ls) row cur fs = processLines cols ls row cur fs := by
          simp only [processLines]
          rw [hskip, hdata]
          simp
        rw [hstep, hskip, hdata]
        have := ih row cur fs hchain hnn hnil hcur
        refine ⟨this.1, this.2.1, this.2.2.1, this.2.2.2.1, ?_⟩
        rw [this.2.2.2.2]
        simp

lemma final_nonneg (cols rows : Nat) (f : PField)
    (hcol : (f.col : Int) ≤ (cols : Int)) (hrow : (f.row : Int) ≤ (rows : Int)) :
    0 ≤ ((cols : Int) - (f.col : Int) + 1) + ((rows : Int) - (f.row : Int)) * (cols : Int) := by
  have h1 : (0 : Int) ≤ (cols : Int) - (f.col : Int) + 1 := by linarith
  have h2 : (0 : Int) ≤ ((rows : Int) - (f.row : Int)) * (cols : Int) :=
    mul_nonneg (by linarith) (by positivity)
  linarith

/-- Claim C1 (amended): for every buffer dump the extractor returns exactly
one field per SF marker; consecutive fields' row-major spans never overlap
(each field's span ends no later than the next field's start); every field
whose recorded start position lies inside the declared screen has
non-negative length (a marker whose computed column exceeds the declared
width can produce a negative length, see the counterexample); and the
single-row two-marker scenario at columns 5 and 20 yields lengths 14 and 61
— not 15 and 61 as claimed: within a row the source computes end minus
start, which is the inter-marker distance minus one. -/
theorem C1_field_extraction :
    (∀ (lines : List Str) (rows cols : Nat),
      (parse_readbuffer_ascii lines rows cols).length = countMarkers lines) ∧
    (∀ (lines : List Str) (rows cols : Nat),
      List.Chain' (Rc cols) (parse_readbuffer_ascii lines rows cols)) ∧
    (∀ (lines : List Str) (rows cols : Nat),
      ∀ f ∈ parse_readbuffer_ascii lines rows cols,
        (f.col : Int) ≤ (cols : Int) → (f.row : Int) ≤ (rows : Int) → 0 ≤ f.len) ∧
    ((parse_readbuffer_ascii ["data:    SF(0)xxxxxSF(0)xxxx".toList] 1 80).map
      (fun f => (f.row, f.col, f.len)) = [(1, 5, (14 : Int)), (1, 20, 61)]) := by
  have main : ∀ (lines : List Str) (rows cols : Nat),
      (parse_readbuffer_ascii lines rows cols).length = countMarkers lines ∧
      List.Chain' (Rc cols) (parse_readbuffer_ascii lines rows cols) ∧
      (∀ f ∈ parse_readbuffer_ascii lines rows cols,
        (f.col : Int) ≤ (cols : Int) → (f.row : Int) ≤ (rows : Int) → 0 ≤ f.len) := by
    intro lines rows cols
    have h := processLines_spec cols lines 1 none [] List.chain'_nil
      (by intro f hf; exact absurd hf (by simp))
      (fun _ => rfl)
      (by intro f hf; exact absurd hf (by simp))
    rcases hpl : processLines cols lines 1 none [] with ⟨cur, fs⟩
    have hfst : (processLines cols lines 1 none []).1 = cur := by rw [hpl]
    have hsnd : (processLines cols lines 1 none []).2 = fs := by rw [hpl]
    rw [hfst, hsnd] at h
    rcases cur with _ | f
    · have hparse : parse_readbuffer_ascii lines rows cols = fs := by
        simp only [parse_readbuffer_ascii, hpl]
      rw [hparse]
      refine ⟨?_, h.1, ?_⟩
      · have := h.2.2.2.2
        simp only [openCount_none, List.length_nil] at this
        omega
      · intro f hf hcol _
        exact h.2.1 f hf hcol
    · have hparse : parse_readbuffer_ascii lines rows cols = fs ++
          [{ f with len := ((cols : Int) - (f.col : Int) + 1) +
            ((rows : Int) - (f.row : Int)) * (cols : Int) }] := by
        simp only [parse_readbuffer_ascii, hpl]
      rw [hparse]
      rcases h.2.2.2.1 f rfl with hlink
      refine ⟨?_, ?_, ?_⟩
      · have := h.2.2.2.2
        simp only [openCount_some, openCount_none, List.length_nil] at this
        simp only [List.length_append, List.length_singleton]
        omega
      · rw [List.chain'_append]
        refine ⟨h.1, List.chain'_singleton _, ?_⟩
        intro x hx y hy
        simp only [List.head?_cons, Option.mem_def, Option.some.injEq] at hy
        subst hy
        have := hlink x (Option.mem_def.mp hx)
        unfold Rc
        rw [absPos_set_len]
        exact this
      · intro g hg hcol hrow
        rcases List.mem_append.mp hg with hmem | hmem
        · exact h.2.1 g hmem hcol
        · rw [List.mem_singleton] at hmem
          subst hmem
          exact final_nonneg cols rows f hcol hrow
  refine ⟨fun lines rows cols => (main lines rows cols).1,
    fun lines rows cols => (main lines rows cols).2.1,
    fun lines rows cols => (main lines rows cols).2.2, ?_⟩
  decide

set_option maxRecDepth 8000 in
/-- Claim C1 counterexample: in the single-row 80-column dump whose two
markers put the fields at columns 5 and 20, the first field's length is 14,
not 15 as claimed (the second is 61 as claimed); and on a dump whose marker
starts past the declared width the computed length is negative, refuting
the unconditional non-negativity part. -/
theorem C1_field_extraction_counterexample :
    ((parse_readbuffer_ascii ["data:    SF(0)xxxxxSF(0)xxxx".toList] 1 80).map
      (fun f => (f.row, f.col, f.len)) = [(1, 5, (14 : Int)), (1, 20, 61)]) ∧
    (∃ f ∈ parse_readbuffer_ascii
      ["data:".toList ++ List.replicate 100 ' ' ++ "SF(0)".toList] 1 80, f.len < 0) := by
  constructor
  · decide
  · decide

/-- Witness for C1 at the scenario input: the extractor returns one field
per marker and both fields (whose starts are on-screen) have non-negative
lengths. -/
theorem C1_field_extraction_witness :
    (parse_readbuffer_ascii ["data:    SF(0)xxxxxSF(0)xxxx".toList] 1 80).length =
      countMarkers ["data:    SF(0)xxxxxSF(0)xxxx".toList] ∧
    (∀ f ∈ parse_readbuffer_ascii ["data:    SF(0)xxxxxSF(0)xxxx".toList] 1 80,
      0 ≤ f.len) := by
  refine ⟨C1_field_extraction.1 _ 1 80, ?_⟩
  intro f hf
  have hfm : (f.row, f.col, f.len) ∈ [(1, 5, (14 : Int)), (1, 20, 61)] := by
    rw [← C1_field_extraction.2.2.2]
    exact List.mem_map_of_mem _ hf
  have hcolrow : ((f.col : Int) ≤ (80 : Int) ∧ (f.row : Int) ≤ (1 : Int)) := by
    rcases List.mem_cons.mp hfm with h | h
    · simp only [Prod.ext_iff] at h
      constructor
      · rw [h.2.1]; norm_num
      · rw [h.1]; norm_num
    · rw [List.mem_singleton] at h
      simp only [Prod.ext_iff] at h
      constructor
      · rw [h.2.1]; norm_num
      · rw [h.1]; norm_num
  exact C1_field_extraction.2.2.1 _ 1 80 f hf hcolrow.1 hcolrow.2

/-! ### Parameter redaction (`ai/observability.py`, `JSONLLogger._redact_params`) -/

/-- Python's substring test `needle in hay`. -/
def pyIn (needle : Str) : Str → Bool
  | [] => needle.isEmpty
  | c :: t => needle.isPrefixOf (c :: t) || pyIn needle t

/-- Python values appearing in logged parameter dicts: strings, nested
dicts, and other scalars (numbers, booleans), which the redaction scan
passes through untouched. -/
inductive PyVal where
  | pstr (s : Str)
  | pdict (entries : List (Str × PyVal))
  | pint (n : Int)
  | pbool (b : Bool)

/-- The sensitive-word set (observability.py lines 25-28).  Python stores
it as a set; only membership-driven `any` scans are taken over it, so the
order is immaterial. -/
def redactKeys : List Str :=
  ["pwd".toList, "pass".toList, "password".toList, "pin".toList, "secret".toList,
   "key".toList, "token".toList, "credential".toList, "auth".toList,
   "api_key".toList, "private".toList]

/-- `any(r in key.lower() for r in self.redact_keys)` (line 56). -/
def sensitiveKey (k : Str) : Bool := redactKeys.any (fun r => pyIn r (pyLower k))

/-- `any(r in key.lower() for r in ["user", "id"])` (line 62). -/
def userIdKey (k : Str) : Bool :=
  ["user".toList, "id".toList].any (fun r => pyIn r (pyLower k))

/-- `any(r in str(value).lower() for r in self.redact_keys)` (line 64). -/
def sensitiveStr (v : Str) : Bool := redactKeys.any (fun r => pyIn r (pyLower v))

def REDACTED : Str := "***REDACTED***".toList

mutual

/-- `JSONLLogger._redact_params` (observability.py lines 48-71), entry by
entry over the dict's insertion order. -/
def redact_params : List (Str × PyVal) → List (Str × PyVal)
  | [] => []
  | (k, v) :: rest => (k, redactValue k v) :: redact_params rest

/-- The per-entry branch ladder of `_redact_params` (lines 54-69):
sensitive key → placeholder; dict value → recurse; string value → kept if
it looks like a username (key contains "user"/"id" and length > 4),
redacted if it contains a sensitive word, kept otherwise; any other value →
kept. -/
def redactValue (k : Str) (v : PyVal) : PyVal :=
  if sensitiveKey k then .pstr REDACTED
  else
    match v with
    | .pdict es => .pdict (redact_params es)
    | .pstr s =>
      if s.length > 4 && userIdKey k then .pstr s
      else if sensitiveStr s then .pstr REDACTED
      else .pstr s
    | other => other

end

/-- Claim C2 counterexample: the parameter dict `{"user": "topsecret"}` has
a string value containing the sensitive word "secret", yet the redaction
scan keeps it verbatim (the keep-usernames branch, observability.py
lines 62-63, fires first), so the serialized form retains the sensitive
value. -/
theorem C2_redaction_counterexample :
    redact_params [("user".toList, PyVal.pstr "topsecret".toList)] =
      [("user".toList, PyVal.pstr "topsecret".toList)] ∧
    sensitiveStr "topsecret".toList = true := by
  constructor
  · rfl
  · decide

/-- Claim C2 (amended): the scan maps each entry independently; a parameter
whose key contains a sensitive word is always replaced by the placeholder;
and a string-valued parameter whose value contains a sensitive word is
replaced unless the keep-usernames exception applies (key contains "user"
or "id" and the value is longer than 4 characters), in which case it is
kept verbatim. -/
theorem C2_redaction_total_except_usernames :
    (∀ d : List (Str × PyVal), redact_params d = d.map (fun e => (e.1, redactValue e.1 e.2))) ∧
    (∀ (k : Str) (v : PyVal), sensitiveKey k = true → redactValue k v = .pstr REDACTED) ∧
    (∀ (k s : Str), sensitiveStr s = true → ¬(4 < s.length ∧ userIdKey k = true) →
      redactValue k (.pstr s) = .pstr REDACTED) := by
  refine ⟨?_, ?_, ?_⟩
  · intro d
    induction d with
    | nil => rfl
    | cons e rest ih =>
      rcases e with ⟨k, v⟩
      simp only [redact_params, List.map_cons, ih]
  · intro k v hk
    unfold redactValue
    rw [if_pos hk]
  · intro k s hs hex
    unfold redactValue
    by_cases hk : sensitiveKey k = true
    · rw [if_pos hk]
    · rw [if_neg hk]
      simp only
      rw [if_neg (by
        intro hcontra
        simp only [Bool.and_eq_true, decide_eq_true_eq] at hcontra
        exact hex ⟨hcontra.1, hcontra.2⟩)]
      rw [if_pos hs]

/-- Witness for C2 at concrete inputs: a sensitive key is redacted, and a
sensitive string value under a non-username key is redacted. -/
theorem C2_redaction_witness :
    redactValue "password".toList (PyVal.pstr "hunter2".toList) = PyVal.pstr REDACTED ∧
    redactValue "note".toList (PyVal.pstr "the pass".toList) = PyVal.pstr REDACTED := by
  constructor
  · exact C2_redaction_total_except_usernames.2.1 _ _ (by decide)
  · exact C2_redaction_total_except_usernames.2.2 _ _ (by decide) (by decide)

/-! ### Session loopback guard (`tn3270_bridge/session.py`, `S3270Session.connect`) -/

/-- Outcome of the loopback guard at the head of `S3270Session.connect`
(session.py lines 170-178): either a ValueError is raised before any
command is issued, or the session proceeds to send `Connect(host)` to the
s3270 subprocess (whose behaviour is external to this repository). -/
inductive ConnectOutcome where
  | valueError
  | proceeds (cmd : Str)
deriving DecidableEq

/-- The guard itself: `host.startswith(("127.0.0.1:", "localhost:"))`
(session.py lines 172-173), then `Connect({host})` is issued
(line 178). -/
def connectGuard (host : Str) : ConnectOutcome :=
  if "127.0.0.1:".toList.isPrefixOf host || "localhost:".toList.isPrefixOf host then
    .proceeds ("Connect(".toList ++ host ++ ")".toList)
  else
    .valueError

/-- Modelled from the spec: "restricted to local-loopback hosts only".  The
spec does not define the syntax of a loopback designation; here a host
string designates loopback when its host portion — everything before the
first colon — is the IPv4 loopback address 127.0.0.1 or the conventional
name localhost.  (The s3270 binary's own hostname parsing is outside this
repository.) -/
def designatesLoopback (host : Str) : Bool :=
  host.takeWhile (fun c => c ≠ ':') = "127.0.0.1".toList ||
  host.takeWhile (fun c => c ≠ ':') = "localhost".toList

/-- Claim C9: connect rejects every non-loopback host — for every host
string that does not designate a loopback address, the guard raises
ValueError before any command is issued; only loopback hosts can proceed
to connect. -/
theorem C9_connect_rejects_nonloopback (host : Str)
    (h : designatesLoopback host = false) : connectGuard host = .valueError := by
  have hcond : ("127.0.0.1:".toList.isPrefixOf host ||
      "localhost:".toList.isPrefixOf host) = false := by
    by_contra hc
    rw [Bool.not_eq_false, Bool.or_eq_true] at hc
    rcases hc with hc | hc
    · obtain ⟨r, hr⟩ : ∃ r, host = "127.0.0.1:".toList ++ r := by
        rw [List.isPrefixOf_iff_prefix] at hc
        exact hc.imp (fun r hr => hr.symm)
      rw [hr] at h
      unfold designatesLoopback at h
      simp [List.takeWhile] at h
    · obtain ⟨r, hr⟩ : ∃ r, host = "localhost:".toList ++ r := by
        rw [List.isPrefixOf_iff_prefix] at hc
        exact hc.imp (fun r hr => hr.symm)
      rw [hr] at h
      unfold designatesLoopback at h
      simp [List.takeWhile] at h
  unfold connectGuard
  rw [if_neg]
  rw [hcond]
  simp

/-- Witness for C9 at a concrete input: a host on another machine is
rejected by the guard. -/
theorem C9_connect_rejects_witness :
    designatesLoopback "10.0.0.7:3270".toList = false ∧
    connectGuard "10.0.0.7:3270".toList = .valueError := by
  refine ⟨by decide, C9_connect_rejects_nonloopback _ (by decide)⟩

/-! ### Fingerprint matcher (`screen_fingerprint.match_screen`) -/

/-- One nested sub-rule of an `any`/`all` list: optional substring and
regex predicates. -/
structure SubRule where
  ascii_contains : Option Str := none
  ascii_regex : Option Str := none

/-- The `match` sub-dict of a rule: optional dimension constraints and
`any`/`all` sub-rule lists. -/
structure MatchBlock where
  cols : Option Int := none
  rows : Option Int := none
  anyRules : Option (List SubRule) := none
  allRules : Option (List SubRule) := none

structure Stability where
  min_chars : Option Int := none

/-- A screen-identification rule (the `screen_id` dict): exactly the keys
`match_screen` reads; keys it never reads are not represented. -/
structure Rule where
  ascii_contains : Option Str := none
  ascii_regex : Option Str := none
  matchBlock : Option MatchBlock := none
  anyRules : Option (List SubRule) := none
  stability : Option Stability := none

/-- A screen snapshot as the flow runner receives it from the bridge's
GET /screen: the keys the runner and matcher read.  `ascii` models
`snapshot.get('ascii', '')` (an absent key behaves as the empty string);
keys read without a default stay optional. -/
structure Snapshot where
  ascii : Str := []
  digest : Option Str := none
  rows : Option Int := none
  cols : Option Int := none
  cursor : Option (List Int) := none
  fields : List PField := []

/-- One iteration of the `any` loops (screen_fingerprint.py lines 81-88
and 117-124): the contains predicate is tried first, then the regex. -/
def subRuleHit (reS : Str → Str → Bool) (ascii_text : Str) (r : SubRule) : Option Str :=
  match r.ascii_contains with
  | some pat =>
    if pyIn pat ascii_text then some ("ascii_contains: ".toList ++ pat)
    else
      match r.ascii_regex with
      | some rx => if reS rx ascii_text then some ("ascii_regex: ".toList ++ rx) else none
      | none => none
  | none =>
    match r.ascii_regex with
    | some rx => if reS rx ascii_text then some ("ascii_regex: ".toList ++ rx) else none
    | none => none

/-- The `any` loop: first hit wins. -/
def anyHit (reS : Str → Str → Bool) (ascii_text : Str) : List SubRule → Option Str
  | [] => none
  | r :: rest =>
    match subRuleHit reS ascii_text r with
    | some d => some d
    | none => anyHit reS ascii_text rest

/-- The `all` loop (lines 91-113): every sub-rule must hit (a sub-rule
hitting on both predicates contributes both descriptions); `none` models
`all_matched = False`. -/
def allCollect (reS : Str → Str → Bool) (ascii_text : Str) : List SubRule → Option (List Str)
  | [] => some []
  | r :: rest =>
    let ds :=
      (match r.ascii_contains with
       | some pat => if pyIn pat ascii_text then [("ascii_contains: ".toList ++ pat)] else []
       | none => []) ++
      (match r.ascii_regex with
       | some rx => if reS rx ascii_text then [("ascii_regex: ".toList ++ rx)] else []
       | none => [])
    if ds.isEmpty then none
    else
      match allCollect reS ascii_text rest with
      | some more => some (ds ++ more)
      | none => none

/-- `screen_fingerprint.match_screen` (lines 38-126).  `re.search` is
modelled as an oracle predicate `reS pattern text` supplied by the caller;
the matcher consults it only on patterns present in the rule. -/
def match_screen (reS : Str → Str → Bool) (snapshot : Snapshot) (screen_id : Rule) :
    Bool × Option Str :=
  let dimsFail : Bool :=
    match screen_id.matchBlock with
    | some mb =>
      (match mb.cols with
       | some c => decide (snapshot.cols ≠ some c)
       | none => false) ||
      (match mb.rows with
       | some r => decide (snapshot.rows ≠ some r)
       | none => false)
    | none => false
  if dimsFail then (false, none)
  else
    let stabFail : Bool :=
      match screen_id.stability with
      | some stab =>
        match stab.min_chars with
        | some mc =>
          decide (((snapshot.ascii.filter
            (fun ch => ch ≠ ' ' && ch ≠ '\n')).length : Int) < mc)
        | none => false
      | none => false
    if stabFail then (false, none)
    else
      let ascii_text := snapshot.ascii
      let direct : Option Str :=
        (match screen_id.ascii_contains with
         | some pat =>
           if pyIn pat ascii_text then some ("ascii_contains: ".toList ++ pat) else none
         | none => none) <|>
        (match screen_id.ascii_regex with
         | some rx =>
           if reS rx ascii_text then some ("ascii_regex: ".toList ++ rx) else none
         | none => none)
      let mbAny : Option Str :=
        match screen_id.matchBlock with
        | some mb =>
          (match mb.anyRules with
           | some rs => anyHit reS ascii_text rs
           | none => none)
        | none => none
      let mbAll : Option Str :=
        match screen_id.matchBlock with
        | some mb =>
          (match mb.allRules with
           | some rs =>
             (match allCollect reS ascii_text rs with
              | some ds => if ds.isEmpty then none else some (List.intercalate " AND ".toList ds)
              | none => none)
           | none => none)
        | none => none
      let topAny : Option Str :=
        match screen_id.anyRules with
        | some rs => anyHit reS ascii_text rs
        | none => none
      match direct <|> mbAny <|> mbAll <|> topAny with
      | some d => (true, some d)
      | none => (false, none)

/-- Claim C7: match rules fail closed — a rule object with no recognized
predicate key (no ascii_contains, ascii_regex, any or match entries) never
matches any snapshot, whatever the regex engine does: the matcher returns
(False, None). -/
theorem C7_match_fail_closed (reS : Str → Str → Bool) (snapshot : Snapshot)
    (screen_id : Rule)
    (h1 : screen_id.ascii_contains = none) (h2 : screen_id.ascii_regex = none)
    (h3 : screen_id.anyRules = none) (h4 : screen_id.matchBlock = none) :
    match_screen reS snapshot screen_id = (false, none) := by
  unfold match_screen
  rw [h1, h2, h3, h4]
  simp only [Option.orElse_none, Option.none_orElse]
  by_cases hst : (match screen_id.stability with
      | some stab =>
        match stab.min_chars with
        | some mc =>
          decide (((snapshot.ascii.filter
            (fun ch => ch ≠ ' ' && ch ≠ '\n')).length : Int) < mc)
        | none => false
      | none => false) = true
  · simp [hst]
  · simp [hst]

/-- Witness for C7 at a concrete input: a rule carrying only a stability
constraint (no predicates) does not match, even with an
always-succeeding regex engine. -/
theorem C7_match_fail_closed_witness :
    match_screen (fun _ _ => true) { ascii := "READY".toList }
      { stability := some { min_chars := some 1 } } = (false, none) :=
  C7_match_fail_closed (fun _ _ => true) _ _ rfl rfl rfl rfl

/-! ### Flow engine (`tools/flow_runner.py`) -/

/-- One transcript entry (flow_runner.py lines 50-55); `ts` is a logical
timestamp standing in for `datetime.now().isoformat()`. -/
structure TEntry where
  ts : Nat
  action : Str
  result : Str
  digest : Option Str
deriving DecidableEq

/-- A stored golden snapshot: the text file plus the metadata JSON written
by `save_golden` (screen_fingerprint.py lines 128-154). -/
structure GoldenRec where
  ascii : Str := []
  digest : Str := []
  rowsMeta : Int := 24
  colsMeta : Int := 80
  field_count : Nat := 0
  cursorMeta : List Int := [0, 0]
deriving DecidableEq

/-- The runner's mutable state (`FlowRunner.__init__`, lines 30-41):
transcript, last seen digest, the filesystem stores it writes (goldens
dir and failure-screen dumps), a logical clock, and per-channel call
counters indexing into the driver oracle. -/
structure RState where
  transcript : List TEntry := []
  current_digest : Option Str := none
  goldens : List (Str × GoldenRec) := []
  failureScreens : List (Str × Str) := []
  tick : Nat := 0
  screenCount : Nat := 0
  statusCount : Nat := 0
  pressCount : Nat := 0
  fillCount : Nat := 0
  fillLabelCount : Nat := 0
  wrCount : Nat := 0
  wcCount : Nat := 0
  save_goldens_flag : Bool := false
deriving DecidableEq

/-- Parameters of one step: the keys `execute_step` reads from the step's
dict.  For assert steps the parameter dict itself is the match rule; its
rule-shaped keys are gathered in `rule`.  A step whose value is not a dict
is normalized to empty params by line 170 (which also makes the raw-int
`sleep_ms` branch at line 271 unreachable). -/
structure SParams where
  timeout_ms : Option Int := none
  aid : Option Str := none
  row : Option Int := none
  col : Option Int := none
  value : Option Str := none
  value_env : Option Str := none
  secret : Option Bool := none
  label : Option Str := none
  offset : Option Int := none
  name : Option Str := none
  ms : Option Int := none
  rule : Rule := {}

/-- One flow step: the single key of the step object plus its parameter
dict. -/
structure Step where
  kind : Str
  params : SParams

/-- One recovery rule (`{when_ascii_contains: ..., do: [...]}`). -/
structure RecRule where
  when_ascii_contains : Option Str := none
  doSteps : Option (List Step) := none

/-- A flow document: name, imports, steps, recovery. -/
structure FlowDoc where
  name : Option Str := none
  imports : Option (List Str) := none
  steps : Option (List Step) := none
  recovery : Option (List RecRule) := none

/-- The external world the runner talks to: the bridge HTTP API modelled
as a deterministic total oracle indexed by per-channel call counters
(transport exceptions are outside the claims settled here), the regex
engine, poll budgets standing in for the wall-clock timeouts of the two
wait loops, the environment-variable map, the flows directory, and trace
mode (which only affects stdout, not state). -/
structure REnv where
  screens : Nat → Snapshot
  statusConnected : Nat → Bool
  pressOk : Nat → Bool
  fillOk : Nat → Bool
  fillLabelOk : Nat → Bool
  wrBudget : Nat → Nat
  wcBudget : Nat → Nat
  reS : Str → Str → Bool
  env_vars : List (Str × Str)
  flowsStore : Str → Option FlowDoc
  trace : Bool

/-- The entry built by one `log_transcript` call (lines 45-55): a secret
non-empty result is replaced by the placeholder (line 47-48), and the
recorded digest is the truncated current digest when one is present and
non-empty (line 54). -/
def logEntryOf (st : RState) (action result : Str) (secret : Bool) : TEntry :=
  ⟨st.tick, action,
    if secret && !result.isEmpty then REDACTED else result,
    match st.current_digest with
    | some d => if d.isEmpty then none else some (d.take 16)
    | none => none⟩

/-- `FlowRunner.log_transcript` (lines 43-60). -/
def log_transcript (st : RState) (action result : Str) (secret : Bool) : RState :=
  { st with
      transcript := st.transcript ++ [logEntryOf st action result secret]
      tick := st.tick + 1 }

/-- `FlowRunner.get_screen` (lines 92-98). -/
def get_screen (env : REnv) (st : RState) : Snapshot × RState :=
  let snap := env.screens st.screenCount
  (snap, { st with screenCount := st.screenCount + 1, current_digest := snap.digest })

/-- `FlowRunner.save_failure_screen` (lines 79-90), as a store of dumped
screens. -/
def save_failure_screen (st : RState) (name screen_text : Str) : RState :=
  { st with failureScreens := st.failureScreens ++ [(name, screen_text)] }

def upsertGolden : List (Str × GoldenRec) → Str → GoldenRec → List (Str × GoldenRec)
  | [], n, g => [(n, g)]
  | (k, v) :: rest, n, g =>
    if k = n then (n, g) :: rest else (k, v) :: upsertGolden rest n g

/-- `screen_fingerprint.save_golden` (lines 128-154): writes text and
metadata for `name`, overwriting an existing golden of the same name. -/
def save_golden (name : Str) (snap : Snapshot) (store : List (Str × GoldenRec)) :
    List (Str × GoldenRec) :=
  upsertGolden store name
    { ascii := snap.ascii
      digest := snap.digest.getD (compute_digest snap.ascii)
      rowsMeta := snap.rows.getD 24
      colsMeta := snap.cols.getD 80
      field_count := snap.fields.length
      cursorMeta := snap.cursor.getD [0, 0] }

/-- Modelled from the spec: `difflib.unified_diff`'s line-level diff
(screen_fingerprint.py lines 204-213).  The engine only ever prints this
text when tracing (flow_runner.py lines 265-266); it never influences
control flow or stored state, so only the line lists it is built from are
retained (Python's `splitlines` is modelled as splitting on newline). -/
def unifiedDiffModel (goldenLines currentLines : List Str) : Str :=
  List.intercalate ['\n']
    (["--- golden".toList, "+++ current".toList] ++
      goldenLines.map (fun l => '-' :: l) ++ currentLines.map (fun l => '+' :: l))

/-- `screen_fingerprint.assert_golden` (lines 182-214): missing golden is
a non-matching result with a message; otherwise digests are compared and a
diff is produced on mismatch. -/
def assert_golden (name : Str) (snap : Snapshot) (store : List (Str × GoldenRec)) :
    Bool × Str :=
  match store.lookup name with
  | none => (false, "Golden \x27".toList ++ name ++ "\x27 not found".toList)
  | some g =>
    let current_digest := compute_digest snap.ascii
    if current_digest = g.digest then (true, "Digests match".toList)
    else (false, unifiedDiffModel (g.ascii.splitOn '\n') (snap.ascii.splitOn '\n'))

/-- Decimal rendering of a Python int in an f-string. -/
def intStr (n : Int) : Str :=
  match n with
  | Int.ofNat m => Nat.toDigits 10 m
  | Int.negSucc m => '-' :: Nat.toDigits 10 (m + 1)

/-- The poll loop of `wait_ready` (lines 100-115): each iteration asks
GET /status; the wall-clock budget is the oracle-provided poll count. -/
def waitReadyLoop (env : REnv) : Nat → RState → Bool × RState
  | 0, st => (false, st)
  | k+1, st =>
    let c := env.statusConnected st.statusCount
    let st := { st with statusCount := st.statusCount + 1 }
    if c then (true, st) else waitReadyLoop env k st

def wait_ready (env : REnv) (st : RState) : Bool × RState :=
  let polls := env.wrBudget st.wrCount
  waitReadyLoop env polls { st with wrCount := st.wrCount + 1 }

/-- The poll loop of `wait_change` (lines 117-129): re-snapshot until the
digest differs from the initial one or the budget runs out. -/
def waitChangeLoop (env : REnv) (initial : Option Str) : Nat → RState → Bool × RState
  | 0, st => (false, st)
  | k+1, st =>
    let res := get_screen env st
    if res.1.digest ≠ initial then (true, res.2) else waitChangeLoop env initial k res.2

def wait_change (env : REnv) (st : RState) : Bool × RState :=
  let initial := st.current_digest
  let polls := env.wcBudget st.wcCount
  waitChangeLoop env initial polls { st with wcCount := st.wcCount + 1 }

/-- `FlowRunner.press` (lines 131-140): log, then POST /press. -/
def pressAct (env : REnv) (st : RState) (aid : Str) : Bool × RState :=
  let st := log_transcript st ("press: ".toList ++ aid) [] false
  let ok := env.pressOk st.pressCount
  (ok, { st with pressCount := st.pressCount + 1 })

/-- `FlowRunner.fill_at` (lines 142-152). -/
def fill_at (env : REnv) (st : RState) (row col : Int) (value : Str) (secret : Bool) :
    Bool × RState :=
  let display := if secret then REDACTED else value
  let st := log_transcript st ("fill_at: (".toList ++ intStr row ++ ",".toList ++
    intStr col ++ ") = ".toList ++ display) [] secret
  let ok := env.fillOk st.fillCount
  (ok, { st with fillCount := st.fillCount + 1 })

/-- `FlowRunner.fill_by_label` (lines 154-164). -/
def fill_by_label (env : REnv) (st : RState) (label : Str) (offset : Int) (value : Str)
    (secret : Bool) : Bool × RState :=
  let display := if secret then REDACTED else value
  let st := log_transcript st ("fill_by_label: ".toList ++ label ++ "+".toList ++
    intStr offset ++ " = ".toList ++ display) [] secret
  let ok := env.fillLabelOk st.fillLabelCount
  (ok, { st with fillLabelCount := st.fillLabelCount + 1 })

/-- Value resolution shared by the two fill branches of `execute_step`
(flow_runner.py lines 193-197 and 206-210): an environment variable wins
over a literal value; both fall back to the empty string. -/
def stepValue (env : REnv) (p : SParams) : Str :=
  match p.value_env with
  | some ev => (env.env_vars.lookup ev).getD []
  | none => p.value.getD []

/-- Rendering of Python `None`-or-string in an f-string. -/
def pyOptStr (o : Option Str) : Str :=
  match o with
  | some r => r
  | none => "None".toList

/-- Embedding of `FlowRunner.execute_step` (flow_runner.py lines 166-282):
an eleven-way dispatch on the step's kind tag.  A `KeyError` on a required
parameter is the `except` branch at lines 280-282, logging
`ERROR: '<key>'` and returning failure; an unrecognized kind logs
`unknown step` and succeeds (lines 276-278). -/
def execute_step (env : REnv) (st : RState) (s : Step) : Bool × RState :=
  let p := s.params
  if s.kind = "wait_ready".toList then
    let timeout := p.timeout_ms.getD 5000
    let res := wait_ready env st
    (res.1, log_transcript res.2
      ("wait_ready: ".toList ++ intStr timeout ++ "ms".toList)
      (if res.1 then "ready".toList else "timeout".toList) false)
  else if s.kind = "wait_change".toList then
    let timeout := p.timeout_ms.getD 5000
    let res := wait_change env st
    (res.1, log_transcript res.2
      ("wait_change: ".toList ++ intStr timeout ++ "ms".toList)
      (if res.1 then "changed".toList else "timeout".toList) false)
  else if s.kind = "press".toList then
    pressAct env st (p.aid.getD "Enter".toList)
  else if s.kind = "fill_at".toList then
    match p.row with
    | none => (false, log_transcript st "fill_at".toList "ERROR: \x27row\x27".toList false)
    | some row =>
      match p.col with
      | none => (false, log_transcript st "fill_at".toList "ERROR: \x27col\x27".toList false)
      | some col => fill_at env st row col (stepValue env p) (p.secret.getD false)
  else if s.kind = "fill_by_label".toList then
    match p.label with
    | none =>
      (false, log_transcript st "fill_by_label".toList "ERROR: \x27label\x27".toList false)
    | some label =>
      fill_by_label env st label (p.offset.getD 1) (stepValue env p) (p.secret.getD false)
  else if s.kind = "assert_screen".toList then
    let res := get_screen env st
    let m := match_screen env.reS res.1 p.rule
    if m.1 then
      (true, log_transcript res.2 "assert_screen".toList
        ("matched: ".toList ++ pyOptStr m.2) false)
    else
      (false, save_failure_screen
        (log_transcript res.2 "assert_screen".toList "FAILED".toList false)
        "assert_fail".toList res.1.ascii)
  else if s.kind = "assert_not_screen".toList then
    let res := get_screen env st
    let m := match_screen env.reS res.1 p.rule
    if m.1 then
      (false, save_failure_screen
        (log_transcript res.2 "assert_not_screen".toList
          ("FAILED: matched ".toList ++ pyOptStr m.2) false)
        "assert_fail".toList res.1.ascii)
    else
      (true, log_transcript res.2 "assert_not_screen".toList "passed".toList false)
  else if s.kind = "snapshot".toList then
    let name := p.name.getD "snapshot".toList
    let res := get_screen env st
    let st2 := log_transcript res.2 ("snapshot: ".toList ++ name) [] false
    if st2.save_goldens_flag then
      (true, { st2 with goldens := save_golden name res.1 st2.goldens })
    else (true, st2)
  else if s.kind = "golden:save".toList then
    match p.name with
    | none =>
      (false, log_transcript st "golden:save".toList "ERROR: \x27name\x27".toList false)
    | some name =>
      let res := get_screen env st
      let st2 := { res.2 with goldens := save_golden name res.1 res.2.goldens }
      (true, log_transcript st2 ("golden:save: ".toList ++ name) [] false)
  else if s.kind = "golden:assert".toList then
    match p.name with
    | none =>
      (false, log_transcript st "golden:assert".toList "ERROR: \x27name\x27".toList false)
    | some name =>
      let res := get_screen env st
      let ag := assert_golden name res.1 res.2.goldens
      if ag.1 then
        (true, log_transcript res.2 ("golden:assert: ".toList ++ name)
          "matches".toList false)
      else
        (false, log_transcript res.2 ("golden:assert: ".toList ++ name)
          "FAILED".toList false)
  else if s.kind = "sleep_ms".toList then
    let ms := p.ms.getD 1000
    (true, log_transcript st ("sleep: ".toList ++ intStr ms ++ "ms".toList) [] false)
  else
    (true, log_transcript st ("unknown step: ".toList ++ s.kind) "SKIPPED".toList false)

/-- The inner loop of `handle_recovery` (lines 326-328): run the rule's
`do` list, stopping at the first failing step. -/
def runDo (env : REnv) : List Step → RState → Bool × RState
  | [], st => (true, st)
  | a :: rest, st =>
    let r := execute_step env st a
    if r.1 then runDo env rest r.2 else (false, r.2)

/-- The rule scan of `handle_recovery` (lines 321-332): the first rule
whose `when_ascii_contains` pattern occurs in the screen text fires; a
rule lacking the key is skipped; no firing rule means failure. -/
def recoveryScan (env : REnv) (ascii_text : Str) : List RecRule → RState → Bool × RState
  | [], st => (false, st)
  | q :: rest, st =>
    match q.when_ascii_contains with
    | none => recoveryScan env ascii_text rest st
    | some pat =>
      if pyIn pat ascii_text then
        runDo env (q.doSteps.getD [])
          (log_transcript st ("Recovery triggered: ".toList ++ pat) [] false)
      else recoveryScan env ascii_text rest st

/-- Embedding of `FlowRunner.handle_recovery` (lines 316-332). -/
def handle_recovery (env : REnv) (recovery : List RecRule) (st : RState) : Bool × RState :=
  let res := get_screen env st
  recoveryScan env res.1.ascii recovery res.2

/-- The step loop of `FlowRunner.execute_flow` (lines 301-314): a failing
step is routed to `handle_recovery` when the flow declares recovery rules;
a successful recovery continues the loop at the next step, anything else
logs `Flow failed at step i+1` and aborts. -/
def exec_flow_steps (env : REnv) (recovery : Option (List RecRule)) :
    List Step → Nat → RState → Bool × RState
  | [], _, st => (true, st)
  | s :: rest, i, st =>
    let r := execute_step env st s
    if r.1 then exec_flow_steps env recovery rest (i+1) r.2
    else
      let rcv : Bool × RState :=
        match recovery with
        | some rules => handle_recovery env rules r.2
        | none => (false, r.2)
      if rcv.1 then exec_flow_steps env recovery rest (i+1) rcv.2
      else
        (false, log_transcript rcv.2
          ("Flow failed at step ".toList ++ intStr (Int.ofNat (i+1))) [] false)

mutual

/-- Embedding of `FlowRunner.execute_flow` (lines 284-314): log the start,
run the imports (each a recursive flow execution), then the step loop,
then log completion.  The `fuel` bound dominates the import nesting depth;
Python would loop forever on cyclic imports, the embedding returns failure
when fuel runs out. -/
def execute_flow (env : REnv) : Nat → FlowDoc → RState → Bool × RState
  | 0, _, st => (false, st)
  | fuel+1, flow, st =>
    let flow_name := flow.name.getD "unnamed".toList
    let st1 := log_transcript st ("Starting flow: ".toList ++ flow_name) [] false
    let ir :=
      match flow.imports with
      | some files => runImports env fuel files st1
      | none => (true, st1)
    if ir.1 then
      let r := exec_flow_steps env flow.recovery (flow.steps.getD []) 0 ir.2
      if r.1 then
        (true, log_transcript r.2 ("Flow completed: ".toList ++ flow_name) [] false)
      else (false, r.2)
    else (false, ir.2)
  termination_by fuel _ _ => (fuel, 0)

/-- The import loop of `execute_flow` (lines 290-299): a file missing from
the flows directory is silently skipped (line 293); an imported flow that
fails aborts the outer flow. -/
def runImports (env : REnv) : Nat → List Str → RState → Bool × RState
  | _, [], st => (true, st)
  | fuel, f :: rest, st =>
    match env.flowsStore f with
    | none => runImports env fuel rest st
    | some doc =>
      let st1 := log_transcript st ("Importing: ".toList ++ f) [] false
      let r := execute_flow env fuel doc st1
      if r.1 then runImports env fuel rest r.2 else (false, r.2)
  termination_by fuel l _ => (fuel, l.length + 1)

end
lemma log_append_shape (st0 : RState) (t0 l0 : List TEntry) (a r : Str) (sec : Bool)
    (h : st0.transcript = t0 ++ l0) :
    (log_transcript st0 a r sec).transcript = t0 ++ (l0 ++ [logEntryOf st0 a r sec]) := by
  simp [log_transcript, h]

lemma waitReadyLoop_transcript (env : REnv) :
    ∀ (k : Nat) (st : RState), (waitReadyLoop env k st).2.transcript = st.transcript := by
  intro k
  induction k with
  | zero => intro st; rfl
  | succ k ih =>
    intro st
    rw [waitReadyLoop]
    split
    · rfl
    · exact ih _

lemma wait_ready_transcript (env : REnv) (st : RState) :
    (wait_ready env st).2.transcript = st.transcript :=
  waitReadyLoop_transcript env _ _

lemma waitChangeLoop_transcript (env : REnv) (initial : Option Str) :
    ∀ (k : Nat) (st : RState),
      (waitChangeLoop env initial k st).2.transcript = st.transcript := by
  intro k
  induction k with
  | zero => intro st; rfl
  | succ k ih =>
    intro st
    rw [waitChangeLoop]
    split
    · rfl
    · exact ih _

lemma wait_change_transcript (env : REnv) (st : RState) :
    (wait_change env st).2.transcript = st.transcript :=
  waitChangeLoop_transcript env _ _ _

lemma transcript_extends_ite (c : Prop) [Decidable c] (x y : Bool × RState)
    (t : List TEntry)
    (hx : ∃ l, x.2.transcript = t ++ l ∧ l ≠ [])
    (hy : ∃ l, y.2.transcript = t ++ l ∧ l ≠ []) :
    ∃ l, (if c then x else y).2.transcript = t ++ l ∧ l ≠ [] := by
  by_cases h : c
  · rw [if_pos h]; exact hx
  · rw [if_neg h]; exact hy

/-- Every branch of `execute_step` appends at least one transcript entry
and never erases existing ones. -/
theorem execute_step_transcript (env : REnv) (st : RState) (s : Step) :
    ∃ l, (execute_step env st s).2.transcript = st.transcript ++ l ∧ l ≠ [] := by
  simp only [execute_step]
  by_cases h1 : s.kind = "wait_ready".toList
  · rw [if_pos h1]
    exact ⟨_, log_append_shape _ st.transcript [] _ _ _
      (by rw [wait_ready_transcript]; simp), by simp⟩
  rw [if_neg h1]
  by_cases h2 : s.kind = "wait_change".toList
  · rw [if_pos h2]
    exact ⟨_, log_append_shape _ st.transcript [] _ _ _
      (by rw [wait_change_transcript]; simp), by simp⟩
  rw [if_neg h2]
  by_cases h3 : s.kind = "press".toList
  · rw [if_pos h3]
    exact ⟨_, rfl, by simp⟩
  rw [if_neg h3]
  by_cases h4 : s.kind = "fill_at".toList
  · rw [if_pos h4]
    rcases hr : s.params.row with _ | row
    · exact ⟨_, rfl, by simp⟩
    rcases hc : s.params.col with _ | col
    · exact ⟨_, rfl, by simp⟩
    exact ⟨_, rfl, by simp⟩
  rw [if_neg h4]
  by_cases h5 : s.kind = "fill_by_label".toList
  · rw [if_pos h5]
    rcases hl : s.params.label with _ | label
    · exact ⟨_, rfl, by simp⟩
    exact ⟨_, rfl, by simp⟩
  rw [if_neg h5]
  by_cases h6 : s.kind = "assert_screen".toList
  · rw [if_pos h6]
    exact transcript_extends_ite _ _ _ _ ⟨_, rfl, by simp⟩ ⟨_, rfl, by simp⟩
  rw [if_neg h6]
  by_cases h7 : s.kind = "assert_not_screen".toList
  · rw [if_pos h7]
    exact transcript_extends_ite _ _ _ _ ⟨_, rfl, by simp⟩ ⟨_, rfl, by simp⟩
  rw [if_neg h7]
  by_cases h8 : s.kind = "snapshot".toList
  · rw [if_pos h8]
    exact transcript_extends_ite _ _ _ _ ⟨_, rfl, by simp⟩ ⟨_, rfl, by simp⟩
  rw [if_neg h8]
  by_cases h9 : s.kind = "golden:save".toList
  · rw [if_pos h9]
    rcases hn : s.params.name with _ | name
    · exact ⟨_, rfl, by simp⟩
    exact ⟨_, rfl, by simp⟩
  rw [if_neg h9]
  by_cases h10 : s.kind = "golden:assert".toList
  · rw [if_pos h10]
    rcases hn : s.params.name with _ | name
    · exact ⟨_, rfl, by simp⟩
    exact transcript_extends_ite _ _ _ _ ⟨_, rfl, by simp⟩ ⟨_, rfl, by simp⟩
  rw [if_neg h10]
  by_cases h11 : s.kind = "sleep_ms".toList
  · rw [if_pos h11]
    exact ⟨_, rfl, by simp⟩
  rw [if_neg h11]
  exact ⟨_, rfl, by simp⟩
/-- A `do` list only ever appends to the transcript. -/
theorem runDo_transcript (env : REnv) :
    ∀ (steps : List Step) (st : RState),
      ∃ l, (runDo env steps st).2.transcript = st.transcript ++ l := by
  intro steps
  induction steps with
  | nil => intro st; exact ⟨[], by simp [runDo]⟩
  | cons a rest ih =>
    intro st
    rw [runDo]
    obtain ⟨l1, hl1, -⟩ := execute_step_transcript env st a
    by_cases hb : (execute_step env st a).1 = true
    · rw [if_pos hb]
      obtain ⟨l2, hl2⟩ := ih (execute_step env st a).2
      exact ⟨l1 ++ l2, by rw [hl2, hl1, List.append_assoc]⟩
    · rw [if_neg hb]
      exact ⟨l1, hl1⟩

lemma recoveryScan_skip (env : REnv) (a : Str) (q : RecRule) (rest : List RecRule)
    (st : RState)
    (hq : ∀ p, q.when_ascii_contains = some p → pyIn p a = false) :
    recoveryScan env a (q :: rest) st = recoveryScan env a rest st := by
  rw [recoveryScan]
  rcases hw : q.when_ascii_contains with _ | p
  · rfl
  · simp [hq p hw]

lemma recoveryScan_skip_list (env : REnv) (a : Str) (pre tail : List RecRule)
    (st : RState)
    (hpre : ∀ q ∈ pre, ∀ p, q.when_ascii_contains = some p → pyIn p a = false) :
    recoveryScan env a (pre ++ tail) st = recoveryScan env a tail st := by
  induction pre with
  | nil => rfl
  | cons q rest ih =>
    rw [List.cons_append,
      recoveryScan_skip env a q (rest ++ tail) st (hpre q (List.mem_cons_self q rest))]
    exact ih (fun q2 hq2 => hpre q2 (List.mem_cons_of_mem q hq2))

lemma recoveryScan_fire (env : REnv) (a : Str) (q : RecRule) (rest : List RecRule)
    (st : RState) (pat : Str)
    (hpat : q.when_ascii_contains = some pat) (hhit : pyIn pat a = true) :
    recoveryScan env a (q :: rest) st =
      runDo env (q.doSteps.getD [])
        (log_transcript st ("Recovery triggered: ".toList ++ pat) [] false) := by
  rw [recoveryScan, hpat]
  simp [hhit]

/-- A failing step under a declared recovery list is unconditionally
routed to `handle_recovery`, whatever the step was (flow_runner.py lines
304-311 have no special case for any step kind). -/
lemma exec_flow_steps_cons_fail (env : REnv) (rules : List RecRule) (s : Step)
    (rest : List Step) (i : Nat) (st st1 : RState)
    (hfail : execute_step env st s = (false, st1)) :
    exec_flow_steps env (some rules) (s :: rest) i st =
      (if (handle_recovery env rules st1).1 then
        exec_flow_steps env (some rules) rest (i+1) (handle_recovery env rules st1).2
      else
        (false, log_transcript (handle_recovery env rules st1).2
          ("Flow failed at step ".toList ++ intStr (Int.ofNat (i+1))) [] false)) := by
  rw [exec_flow_steps]
  rw [hfail]
  rw [if_neg Bool.false_ne_true]

/-- With the name parameter present, a `golden:assert` step reduces to the
outcome of `assert_golden` on the freshly fetched snapshot (flow_runner.py
lines 256-268). -/
lemma execute_step_golden_assert (env : REnv) (st : RState) (s : Step) (name : Str)
    (hk : s.kind = "golden:assert".toList) (hn : s.params.name = some name) :
    execute_step env st s =
      (if (assert_golden name (get_screen env st).1 (get_screen env st).2.goldens).1 then
        (true, log_transcript (get_screen env st).2
          ("golden:assert: ".toList ++ name) "matches".toList false)
      else
        (false, log_transcript (get_screen env st).2
          ("golden:assert: ".toList ++ name) "FAILED".toList false)) := by
  simp only [execute_step]
  rw [if_neg (by rw [hk]; decide), if_neg (by rw [hk]; decide),
    if_neg (by rw [hk]; decide), if_neg (by rw [hk]; decide),
    if_neg (by rw [hk]; decide), if_neg (by rw [hk]; decide),
    if_neg (by rw [hk]; decide), if_neg (by rw [hk]; decide),
    if_neg (by rw [hk]; decide), if_pos hk, hn]
/-- The eleven step kinds enumerated by `execute_step`'s dispatch chain
(flow_runner.py lines 173-274). -/
def knownStepKinds : List Str :=
  ["wait_ready".toList, "wait_change".toList, "press".toList, "fill_at".toList,
   "fill_by_label".toList, "assert_screen".toList, "assert_not_screen".toList,
   "snapshot".toList, "golden:save".toList, "golden:assert".toList, "sleep_ms".toList]

/-- Claim C8: for every step whose kind tag is not one of the enumerated
step kinds, execution logs the unknown kind with result SKIPPED and
returns success — a pure no-op on the runner's state beyond the log
entry, never a failure and never an exception. -/
theorem C8_unknown_step_noop (env : REnv) (st : RState) (s : Step)
    (h : s.kind ∉ knownStepKinds) :
    execute_step env st s =
      (true, log_transcript st ("unknown step: ".toList ++ s.kind)
        "SKIPPED".toList false) := by
  have h1 : ¬(s.kind = "wait_ready".toList) := fun hc => h (by rw [hc]; decide)
  have h2 : ¬(s.kind = "wait_change".toList) := fun hc => h (by rw [hc]; decide)
  have h3 : ¬(s.kind = "press".toList) := fun hc => h (by rw [hc]; decide)
  have h4 : ¬(s.kind = "fill_at".toList) := fun hc => h (by rw [hc]; decide)
  have h5 : ¬(s.kind = "fill_by_label".toList) := fun hc => h (by rw [hc]; decide)
  have h6 : ¬(s.kind = "assert_screen".toList) := fun hc => h (by rw [hc]; decide)
  have h7 : ¬(s.kind = "assert_not_screen".toList) := fun hc => h (by rw [hc]; decide)
  have h8 : ¬(s.kind = "snapshot".toList) := fun hc => h (by rw [hc]; decide)
  have h9 : ¬(s.kind = "golden:save".toList) := fun hc => h (by rw [hc]; decide)
  have h10 : ¬(s.kind = "golden:assert".toList) := fun hc => h (by rw [hc]; decide)
  have h11 : ¬(s.kind = "sleep_ms".toList) := fun hc => h (by rw [hc]; decide)
  simp only [execute_step]
  rw [if_neg h1, if_neg h2, if_neg h3, if_neg h4, if_neg h5, if_neg h6, if_neg h7,
    if_neg h8, if_neg h9, if_neg h10, if_neg h11]

/-- A trivially instantiated driver oracle for concrete runs. -/
def demoEnv : REnv :=
  { screens := fun _ => {}
    statusConnected := fun _ => true
    pressOk := fun _ => true
    fillOk := fun _ => true
    fillLabelOk := fun _ => true
    wrBudget := fun _ => 1
    wcBudget := fun _ => 1
    reS := fun _ _ => false
    env_vars := []
    flowsStore := fun _ => none
    trace := false }

/-- Witness for C8 at a concrete input: the made-up kind `frobnicate` is
not in the dispatch list, and executing it succeeds with only the
SKIPPED log entry. -/
theorem C8_unknown_step_noop_witness :
    "frobnicate".toList ∉ knownStepKinds ∧
    execute_step demoEnv {} { kind := "frobnicate".toList, params := {} } =
      (true, log_transcript {} ("unknown step: ".toList ++ "frobnicate".toList)
        "SKIPPED".toList false) :=
  ⟨by decide, C8_unknown_step_noop demoEnv {} _ (by decide)⟩
/-- Claim C4: when step `s` of a flow fails, the rules before `q` in the
recovery list do not match the then-current screen, `q`'s trigger does,
and `q`'s remedial `do` list succeeds, the engine continues execution at
the next step with the post-recovery state — it neither re-executes the
failed step nor aborts — and the transcript grows by the failed step's
entries followed by the recovery entries, among them the
`Recovery triggered` line. -/
theorem C4_recovery_continues_at_next_step
    (env : REnv) (st st1 st2 : RState) (s : Step) (rest : List Step) (i : Nat)
    (pre post : List RecRule) (q : RecRule) (pat : Str)
    (hfail : execute_step env st s = (false, st1))
    (hpre : ∀ r ∈ pre, ∀ p, r.when_ascii_contains = some p →
      pyIn p (get_screen env st1).1.ascii = false)
    (hpat : q.when_ascii_contains = some pat)
    (hhit : pyIn pat (get_screen env st1).1.ascii = true)
    (hdo : runDo env (q.doSteps.getD [])
      (log_transcript (get_screen env st1).2
        ("Recovery triggered: ".toList ++ pat) [] false) = (true, st2)) :
    exec_flow_steps env (some (pre ++ q :: post)) (s :: rest) i st =
      exec_flow_steps env (some (pre ++ q :: post)) rest (i+1) st2 ∧
    ∃ l1 l2, st2.transcript = st.transcript ++ l1 ++ l2 ∧ l1 ≠ [] ∧
      ∃ e ∈ l2, e.action = "Recovery triggered: ".toList ++ pat := by
  have hhr : handle_recovery env (pre ++ q :: post) st1 = (true, st2) := by
    rw [handle_recovery]
    rw [recoveryScan_skip_list env _ pre (q :: post) _ hpre,
      recoveryScan_fire env _ q post _ pat hpat hhit, hdo]
  constructor
  · rw [exec_flow_steps_cons_fail env (pre ++ q :: post) s rest i st st1 hfail, hhr,
      if_pos rfl]
  · obtain ⟨l1, hl1, hne⟩ := execute_step_transcript env st s
    rw [hfail] at hl1
    have hl1A : st1.transcript = st.transcript ++ l1 := hl1
    obtain ⟨l3, hl3⟩ := runDo_transcript env (q.doSteps.getD [])
      (log_transcript (get_screen env st1).2
        ("Recovery triggered: ".toList ++ pat) [] false)
    rw [hdo] at hl3
    have hl3A : st2.transcript =
        (log_transcript (get_screen env st1).2
          ("Recovery triggered: ".toList ++ pat) [] false).transcript ++ l3 := hl3
    refine ⟨l1,
      logEntryOf (get_screen env st1).2
        ("Recovery triggered: ".toList ++ pat) [] false :: l3, ?_, hne, ?_⟩
    · have hmid : (log_transcript (get_screen env st1).2
          ("Recovery triggered: ".toList ++ pat) [] false).transcript =
          st1.transcript ++ [logEntryOf (get_screen env st1).2
            ("Recovery triggered: ".toList ++ pat) [] false] := rfl
      rw [hl3A, hmid, hl1A]
      simp [List.append_assoc]
    · exact ⟨_, List.mem_cons_self _ _, rfl⟩

def c4snap : Snapshot := { ascii := "HELLO WORLD".toList }

def c4env : REnv :=
  { screens := fun _ => c4snap
    statusConnected := fun _ => true
    pressOk := fun _ => true
    fillOk := fun _ => true
    fillLabelOk := fun _ => true
    wrBudget := fun _ => 1
    wcBudget := fun _ => 1
    reS := fun _ _ => false
    env_vars := []
    flowsStore := fun _ => none
    trace := false }

/-- An `assert_screen` step with an empty rule: it always fails (rules
with no predicate fail closed), standing in for the claim's failing
assertion. -/
def c4step : Step := { kind := "assert_screen".toList, params := {} }

def c4rule : RecRule := { when_ascii_contains := some "HELLO".toList, doSteps := some [] }

def c4st1 : RState := (execute_step c4env {} c4step).2

def c4st2 : RState :=
  (runDo c4env [] (log_transcript (get_screen c4env c4st1).2
    ("Recovery triggered: ".toList ++ "HELLO".toList) [] false)).2

/-- Witness for C4 at a concrete input: a one-step flow whose
`assert_screen` fails on the HELLO WORLD screen, with a recovery rule
triggered by `HELLO` whose empty `do` list succeeds; the engine proceeds
past the failed step with the recovery state. -/
theorem C4_recovery_continues_at_next_step_witness :
    exec_flow_steps c4env (some ([] ++ c4rule :: [])) (c4step :: []) 0 {} =
      exec_flow_steps c4env (some ([] ++ c4rule :: [])) [] 1 c4st2 ∧
    ∃ l1 l2, c4st2.transcript = ({} : RState).transcript ++ l1 ++ l2 ∧ l1 ≠ [] ∧
      ∃ e ∈ l2, e.action = "Recovery triggered: ".toList ++ "HELLO".toList :=
  C4_recovery_continues_at_next_step c4env {} c4st1 c4st2 c4step [] 0 [] []
    c4rule "HELLO".toList (by decide) (by simp) rfl (by decide) rfl
/-- Claim C3 (amended): a failing `golden:assert` (digest mismatch or
missing golden) logs FAILED and fails the step, and the step loop then
routes that failure through `handle_recovery` exactly like any other step
failure — flow_runner.py lines 301-311 contain no special case exempting
golden mismatches from recovery. -/
theorem C3_golden_mismatch_routed_through_recovery
    (env : REnv) (st : RState) (s : Step) (name : Str) (rules : List RecRule)
    (rest : List Step) (i : Nat)
    (hk : s.kind = "golden:assert".toList) (hn : s.params.name = some name)
    (hag : (assert_golden name (get_screen env st).1 (get_screen env st).2.goldens).1
      = false) :
    execute_step env st s =
      (false, log_transcript (get_screen env st).2
        ("golden:assert: ".toList ++ name) "FAILED".toList false) ∧
    exec_flow_steps env (some rules) (s :: rest) i st =
      (if (handle_recovery env rules
            (log_transcript (get_screen env st).2
              ("golden:assert: ".toList ++ name) "FAILED".toList false)).1 then
        exec_flow_steps env (some rules) rest (i+1)
          (handle_recovery env rules
            (log_transcript (get_screen env st).2
              ("golden:assert: ".toList ++ name) "FAILED".toList false)).2
      else
        (false, log_transcript
          (handle_recovery env rules
            (log_transcript (get_screen env st).2
              ("golden:assert: ".toList ++ name) "FAILED".toList false)).2
          ("Flow failed at step ".toList ++ intStr (Int.ofNat (i+1))) [] false)) := by
  have h1 : execute_step env st s =
      (false, log_transcript (get_screen env st).2
        ("golden:assert: ".toList ++ name) "FAILED".toList false) := by
    rw [execute_step_golden_assert env st s name hk hn, if_neg (by simp [hag])]
  exact ⟨h1, exec_flow_steps_cons_fail env rules s rest i st _ h1⟩

def c3g : GoldenRec := { digest := [] }

def c3snap : Snapshot := { ascii := "MENU SCREEN".toList }

def c3env : REnv :=
  { screens := fun _ => c3snap
    statusConnected := fun _ => true
    pressOk := fun _ => true
    fillOk := fun _ => true
    fillLabelOk := fun _ => true
    wrBudget := fun _ => 1
    wcBudget := fun _ => 1
    reS := fun _ _ => false
    env_vars := []
    flowsStore := fun _ => none
    trace := false }

def c3st : RState := { goldens := [("g1".toList, c3g)] }

def c3step : Step :=
  { kind := "golden:assert".toList, params := { name := some "g1".toList } }

def c3rule : RecRule := { when_ascii_contains := some "MENU".toList, doSteps := some [] }

/-- A found golden with a digest differing from the current screen's is a
mismatch carrying the diff (screen_fingerprint.py lines 195-213). -/
lemma assert_golden_found (name : Str) (snap : Snapshot)
    (store : List (Str × GoldenRec)) (g : GoldenRec)
    (hlk : store.lookup name = some g)
    (hne : compute_digest snap.ascii ≠ g.digest) :
    assert_golden name snap store =
      (false, unifiedDiffModel (g.ascii.splitOn '\n') (snap.ascii.splitOn '\n')) := by
  simp only [assert_golden]
  rw [hlk]
  simp [hne]

/-- The stored golden `g1` has a zero-length digest while `compute_digest`
always returns 64 hex characters, so the concrete `golden:assert` is a
digest mismatch. -/
lemma c3_assert_fails :
    (assert_golden "g1".toList (get_screen c3env c3st).1
      (get_screen c3env c3st).2.goldens).1 = false := by
  rw [assert_golden_found "g1".toList (get_screen c3env c3st).1
    (get_screen c3env c3st).2.goldens c3g (by decide)
    (fun hc => by
      have hlen := congrArg List.length hc
      rw [compute_digest_length] at hlen
      exact absurd hlen (by decide))]

/-- The state after the failed concrete `golden:assert`. -/
def c3stF : RState :=
  log_transcript (get_screen c3env c3st).2
    ("golden:assert: ".toList ++ "g1".toList) "FAILED".toList false

/-- Counterexample to C3 as frozen: a flow whose only step is a
`golden:assert` that fails on a digest mismatch, with a recovery rule
matching the current screen, completes successfully — the mismatch WAS
auto-recovered — and its transcript holds both the FAILED golden entry
and the Recovery triggered entry. -/
theorem C3_golden_recovery_counterexample :
    (exec_flow_steps c3env (some [c3rule]) [c3step] 0 c3st).1 = true ∧
    (∃ e ∈ (exec_flow_steps c3env (some [c3rule]) [c3step] 0 c3st).2.transcript,
      e.action = "golden:assert: g1".toList ∧ e.result = "FAILED".toList) ∧
    ∃ e ∈ (exec_flow_steps c3env (some [c3rule]) [c3step] 0 c3st).2.transcript,
      e.action = "Recovery triggered: MENU".toList := by
  have h1 : execute_step c3env c3st c3step = (false, c3stF) := by
    rw [execute_step_golden_assert c3env c3st c3step "g1".toList rfl rfl,
      if_neg (by simp only [c3_assert_fails]; decide)]
    rfl
  have h2 : exec_flow_steps c3env (some [c3rule]) [c3step] 0 c3st =
      (true, (handle_recovery c3env [c3rule] c3stF).2) := by
    rw [exec_flow_steps_cons_fail c3env [c3rule] c3step [] 0 c3st c3stF h1,
      if_pos (by decide)]
    rw [exec_flow_steps]
  rw [h2]
  refine ⟨rfl, ?_, ?_⟩ <;> decide

/-- Witness for the amended C3 at a concrete input: the digest-mismatch
`golden:assert` step against golden `g1` fails with the FAILED entry, and
the one-step flow with one recovery rule takes the generic recovery
route. -/
theorem C3_golden_mismatch_routed_witness :
    execute_step c3env c3st c3step =
      (false, log_transcript (get_screen c3env c3st).2
        ("golden:assert: ".toList ++ "g1".toList) "FAILED".toList false) ∧
    exec_flow_steps c3env (some [c3rule]) (c3step :: []) 0 c3st =
      (if (handle_recovery c3env [c3rule]
            (log_transcript (get_screen c3env c3st).2
              ("golden:assert: ".toList ++ "g1".toList) "FAILED".toList false)).1 then
        exec_flow_steps c3env (some [c3rule]) [] 1
          (handle_recovery c3env [c3rule]
            (log_transcript (get_screen c3env c3st).2
              ("golden:assert: ".toList ++ "g1".toList) "FAILED".toList false)).2
      else
        (false, log_transcript
          (handle_recovery c3env [c3rule]
            (log_transcript (get_screen c3env c3st).2
              ("golden:assert: ".toList ++ "g1".toList) "FAILED".toList false)).2
          ("Flow failed at step ".toList ++ intStr (Int.ofNat 1)) [] false)) :=
  C3_golden_mismatch_routed_through_recovery c3env c3st c3step "g1".toList [c3rule]
    [] 0 rfl rfl c3_assert_fails
